import Mathlib

/-!
Verification of the lesson-editor core: the pending-edit ledger
(`src/contexts/EditingContext.tsx`), the scrubbable-number editor modal
(`src/components/editing/ScrubbleNumberEditorModal.tsx`), the inline-marker
codec (`extractContentWithMarkers` / `parseContentWithInlineComponents`),
the slash-command registry and filter
(`src/components/templates/SlashCommandMenu.tsx`), and the slash-trigger
input handler (`SectionInput.handleInput`).

JavaScript numbers are modelled as rationals (`Rat`); every claim in scope
uses only exact order comparisons, which coincide on the values involved.
JavaScript objects of type `ScrubbleNumberProps` are modelled as ordered
association lists, which is what `JSON.stringify` observes (insertion order
of present keys; keys holding `undefined` are omitted from the output).
-/

namespace LessonEditor

/-! ## Data model of the edit ledger (EditingContext.tsx) -/

/-- `TextEdit` record (`type: 'text'`); optional HTML snapshots are `Option`. -/
structure TextEdit where
  id : String
  sectionId : String
  elementPath : String
  originalText : String
  originalHtml : Option String
  newText : String
  newHtml : Option String
  timestamp : Nat
deriving DecidableEq

/-- The `componentType` union of `EquationEdit`. -/
inductive ComponentType where
  | equationC
  | interactiveEquationC
  | coloredEquationC
deriving DecidableEq

/-- `EquationEdit` record (`type: 'equation'`); `colorMap` is an optional
string-to-string record, modelled as an association list. -/
structure EquationEdit where
  id : String
  sectionId : String
  componentType : ComponentType
  originalLatex : String
  newLatex : String
  colorMap : Option (List (String × String))
  timestamp : Nat
deriving DecidableEq

/-- Keys of the `ScrubbleNumberProps` interface. -/
inductive PropKey where
  | varName
  | defaultValue
  | min
  | max
  | step
deriving DecidableEq

/-- A JSON-serialisable property value: `varName` holds a string, the others
hold numbers (JS doubles, modelled as `Rat`). -/
inductive PropVal where
  | str (s : String)
  | num (n : Rat)
deriving DecidableEq

/-- A `ScrubbleNumberProps` runtime object: the keys present on the object in
insertion order, each with its value.  A key absent from the list corresponds
to an absent (or `undefined`) property. -/
def ScrubbleNumberProps : Type := List (PropKey × PropVal)

instance : DecidableEq ScrubbleNumberProps :=
  inferInstanceAs (DecidableEq (List (PropKey × PropVal)))

/-- `ScrubbleNumberEdit` record (`type: 'scrubbleNumber'`). -/
structure ScrubbleNumberEdit where
  id : String
  sectionId : String
  elementPath : String
  originalProps : ScrubbleNumberProps
  newProps : ScrubbleNumberProps
  timestamp : Nat
deriving DecidableEq

/-- The `action` union of `StructureEdit`. -/
inductive StructureAction where
  | reorder
  | delete
  | add
deriving DecidableEq

/-- `StructureEdit` record (`type: 'structure'`). -/
structure StructureEdit where
  id : String
  action : StructureAction
  sectionId : Option String
  sectionIds : Option (List String)
  content : Option String
  blockType : Option String
  timestamp : Nat
deriving DecidableEq

/-- The `PendingEdit` tagged union. -/
inductive PendingEdit where
  | text (t : TextEdit)
  | equation (q : EquationEdit)
  | scrubbleNumber (n : ScrubbleNumberEdit)
  | «structure» (s : StructureEdit)
deriving DecidableEq

/-- `edit.id`, shared by all four variants. -/
def PendingEdit.id : PendingEdit → String
  | .text t => t.id
  | .equation q => q.id
  | .scrubbleNumber n => n.id
  | .«structure» s => s.id

/-! ## Call payloads (the `Omit<..., 'id' | 'type' | 'timestamp'>` inputs) -/

structure TextEditInput where
  sectionId : String
  elementPath : String
  originalText : String
  originalHtml : Option String
  newText : String
  newHtml : Option String
deriving DecidableEq

structure EquationEditInput where
  sectionId : String
  componentType : ComponentType
  originalLatex : String
  newLatex : String
  colorMap : Option (List (String × String))
deriving DecidableEq

structure ScrubbleNumberEditInput where
  sectionId : String
  elementPath : String
  originalProps : ScrubbleNumberProps
  newProps : ScrubbleNumberProps
deriving DecidableEq

structure StructureEditInput where
  action : StructureAction
  sectionId : Option String
  sectionIds : Option (List String)
  content : Option String
  blockType : Option String
deriving DecidableEq

/-! ## The `findIndex`-then-update/splice pattern

Each `add*Edit` reducer runs `prev.findIndex(test)` and, when a match is
found, either replaces the matched element in place (`updated[i] = ...`) or
removes it (`updated.splice(i, 1)`).  `updateFirstWith test f` captures that
pattern: it rewrites the first element passing `test` (`f` returning `none`
means splice), and returns `none` when `findIndex` returns `-1`. -/

def updateFirstWith (test : PendingEdit → Bool) (f : PendingEdit → Option PendingEdit) :
    List PendingEdit → Option (List PendingEdit)
  | [] => none
  | e :: rest =>
    if test e then
      some ((f e).elim rest (· :: rest))
    else
      (updateFirstWith test f rest).map (e :: ·)

/-! ## Search predicates used by the reducers -/

/-- `e.type === 'structure' && e.action === 'add' && e.sectionId === sid`
(`sid` is an `Option` because `StructureEdit.sectionId` is optional; the
text-edit absorption check passes `some edit.sectionId`). -/
def isStructAddFor (sid : Option String) : PendingEdit → Bool
  | .«structure» s => (match s.action with | .add => true | _ => false) && s.sectionId == sid
  | _ => false

/-- `e.type === 'text' && e.sectionId === sid && e.elementPath === path`. -/
def isTextFor (sid path : String) : PendingEdit → Bool
  | .text t => t.sectionId == sid && t.elementPath == path
  | _ => false

/-- `e.type === 'equation' && e.sectionId === sid && e.originalLatex === ol`. -/
def isEquationFor (sid ol : String) : PendingEdit → Bool
  | .equation q => q.sectionId == sid && q.originalLatex == ol
  | _ => false

/-- `e.type === 'scrubbleNumber' && e.sectionId === sid && e.elementPath === path`. -/
def isScrubbleFor (sid path : String) : PendingEdit → Bool
  | .scrubbleNumber n => n.sectionId == sid && n.elementPath == path
  | _ => false

/-! ## addTextEdit -/

/-- JS falsiness of an optional string: `undefined` and `""` are falsy. -/
def falsyStr : Option String → Bool
  | none => true
  | some s => s == ""

/-- The `isReverted` test of `addTextEdit`:
`edit.newText === existing.originalText && (!edit.newHtml ||
!existing.originalHtml || edit.newHtml === existing.originalHtml)`. -/
def isReverted (edit : TextEditInput) (existing : TextEdit) : Bool :=
  edit.newText == existing.originalText &&
    (falsyStr edit.newHtml || falsyStr existing.originalHtml ||
      edit.newHtml == existing.originalHtml)

/-- Step 1 of `addTextEdit`: overwrite the pending structure-add edit's
`content` with `edit.newText` and refresh its timestamp. -/
def absorbIntoStructureAdd (newText : String) (now : Nat) : PendingEdit → Option PendingEdit
  | .«structure» s => some (.«structure» { s with content := some newText, timestamp := now })
  | e => some e

/-- Step 2 of `addTextEdit`: remove the existing text edit when reverted,
otherwise update `newText`/`newHtml` in place and refresh the timestamp. -/
def applyTextUpdate (edit : TextEditInput) (now : Nat) : PendingEdit → Option PendingEdit
  | .text t =>
    if isReverted edit t then none
    else some (.text
      { t with
        newText := edit.newText
        newHtml := edit.newHtml
        timestamp := now })
  | e => some e

/-- The fresh record appended by step 3 of `addTextEdit`. -/
def newTextEdit (edit : TextEditInput) (newId : String) (now : Nat) : TextEdit :=
  { id := newId
    sectionId := edit.sectionId
    elementPath := edit.elementPath
    originalText := edit.originalText
    originalHtml := edit.originalHtml
    newText := edit.newText
    newHtml := edit.newHtml
    timestamp := now }

/-- `addTextEdit` reducer (EditingContext.tsx lines 133-198).  `newId` models
`generateId()` and `now` models `Date.now()`. -/
def addTextEdit (edit : TextEditInput) (newId : String) (now : Nat)
    (prev : List PendingEdit) : List PendingEdit :=
  match updateFirstWith (isStructAddFor (some edit.sectionId))
      (absorbIntoStructureAdd edit.newText now) prev with
  | some updated => updated
  | none =>
    match updateFirstWith (isTextFor edit.sectionId edit.elementPath)
        (applyTextUpdate edit now) prev with
    | some updated => updated
    | none => prev ++ [.text (newTextEdit edit newId now)]

/-! ## addEquationEdit -/

def applyEquationUpdate (edit : EquationEditInput) (now : Nat) : PendingEdit → Option PendingEdit
  | .equation q =>
    if edit.newLatex == q.originalLatex then none
    else some (.equation
      { q with
        newLatex := edit.newLatex
        colorMap := edit.colorMap
        timestamp := now })
  | e => some e

def newEquationEdit (edit : EquationEditInput) (newId : String) (now : Nat) : EquationEdit :=
  { id := newId
    sectionId := edit.sectionId
    componentType := edit.componentType
    originalLatex := edit.originalLatex
    newLatex := edit.newLatex
    colorMap := edit.colorMap
    timestamp := now }

/-- `addEquationEdit` reducer (EditingContext.tsx lines 200-239). -/
def addEquationEdit (edit : EquationEditInput) (newId : String) (now : Nat)
    (prev : List PendingEdit) : List PendingEdit :=
  match updateFirstWith (isEquationFor edit.sectionId edit.originalLatex)
      (applyEquationUpdate edit now) prev with
  | some updated => updated
  | none => prev ++ [.equation (newEquationEdit edit newId now)]

/-! ## addScrubbleNumberEdit and JSON.stringify on props -/

def propKeyName : PropKey → String
  | .varName => "varName"
  | .defaultValue => "defaultValue"
  | .min => "min"
  | .max => "max"
  | .step => "step"

/-- Escaping applied by `JSON.stringify` to the characters relevant here. -/
def jsonEscapeChar (c : Char) : List Char :=
  if c = '"' then ['\\', '"']
  else if c = '\\' then ['\\', '\\']
  else [c]

def jsonQuote (s : String) : String :=
  "\"" ++ String.mk (s.data.flatMap jsonEscapeChar) ++ "\""

def propValJson : PropVal → String
  | .str s => jsonQuote s
  | .num n => toString n

/-- `JSON.stringify` on a `ScrubbleNumberProps` object: present keys in
insertion order (keys holding `undefined` are already absent from the model). -/
def stringifyProps (p : ScrubbleNumberProps) : String :=
  "\x7b" ++ String.intercalate ","
    (p.map fun kv => jsonQuote (propKeyName kv.1) ++ ":" ++ propValJson kv.2) ++ "\x7d"

def applyScrubbleUpdate (edit : ScrubbleNumberEditInput) (now : Nat) :
    PendingEdit → Option PendingEdit
  | .scrubbleNumber n =>
    if stringifyProps edit.newProps == stringifyProps n.originalProps then none
    else some (.scrubbleNumber { n with newProps := edit.newProps, timestamp := now })
  | e => some e

def newScrubbleNumberEdit (edit : ScrubbleNumberEditInput) (newId : String) (now : Nat) :
    ScrubbleNumberEdit :=
  { id := newId
    sectionId := edit.sectionId
    elementPath := edit.elementPath
    originalProps := edit.originalProps
    newProps := edit.newProps
    timestamp := now }

/-- `addScrubbleNumberEdit` reducer (EditingContext.tsx lines 318-357). -/
def addScrubbleNumberEdit (edit : ScrubbleNumberEditInput) (newId : String) (now : Nat)
    (prev : List PendingEdit) : List PendingEdit :=
  match updateFirstWith (isScrubbleFor edit.sectionId edit.elementPath)
      (applyScrubbleUpdate edit now) prev with
  | some updated => updated
  | none => prev ++ [.scrubbleNumber (newScrubbleNumberEdit edit newId now)]

/-! ## addStructureEdit -/

/-- The spread merge `{...existing, ...edit, timestamp: Date.now()}`: a field
the caller's object literal supplies overwrites the existing one, an omitted
field is kept. -/
def mergeStructure (edit : StructureEditInput) (now : Nat) : PendingEdit → Option PendingEdit
  | .«structure» s =>
    some (.«structure»
      { s with
        action := edit.action
        sectionId := edit.sectionId.elim s.sectionId some
        sectionIds := edit.sectionIds.elim s.sectionIds some
        content := edit.content.elim s.content some
        blockType := edit.blockType.elim s.blockType some
        timestamp := now })
  | e => some e

def newStructureEdit (edit : StructureEditInput) (newId : String) (now : Nat) : StructureEdit :=
  { id := newId
    action := edit.action
    sectionId := edit.sectionId
    sectionIds := edit.sectionIds
    content := edit.content
    blockType := edit.blockType
    timestamp := now }

/-- `addStructureEdit` reducer (EditingContext.tsx lines 241-274): an `add`
merges into a pending add edit for the same `sectionId`; everything else
appends. -/
def addStructureEdit (edit : StructureEditInput) (newId : String) (now : Nat)
    (prev : List PendingEdit) : List PendingEdit :=
  match edit.action with
  | .add =>
    match updateFirstWith (isStructAddFor edit.sectionId) (mergeStructure edit now) prev with
    | some updated => updated
    | none => prev ++ [.«structure» (newStructureEdit edit newId now)]
  | _ => prev ++ [.«structure» (newStructureEdit edit newId now)]

/-- `removeEdit` (EditingContext.tsx lines 276-278). -/
def removeEdit (editId : String) (prev : List PendingEdit) : List PendingEdit :=
  prev.filter fun e => !(e.id == editId)

/-- `clearAllEdits` (EditingContext.tsx lines 280-282). -/
def clearAllEdits (_prev : List PendingEdit) : List PendingEdit := []

/-! ## The scrubbable-number modal focus and save path

`editingScrubbleNumber` is `{...props, sectionId, elementPath}`;
`saveScrubbleNumberEdit` destructures it back into `originalProps` and the
identity pair, so the focus state is modelled as that triple. -/

structure EditingScrubbleNumber where
  props : ScrubbleNumberProps
  sectionId : String
  elementPath : String
deriving DecidableEq

/-- `saveScrubbleNumberEdit` (EditingContext.tsx lines 371-389): compares the
JSON serialisations and calls `addScrubbleNumberEdit` only when they differ,
then clears the focus.  Returns the new focus state and ledger. -/
def saveScrubbleNumberEdit (newProps : ScrubbleNumberProps)
    (editing : Option EditingScrubbleNumber) (ledger : List PendingEdit)
    (newId : String) (now : Nat) : Option EditingScrubbleNumber × List PendingEdit :=
  match editing with
  | none => (none, ledger)
  | some st =>
    let propsChanged := !(stringifyProps newProps == stringifyProps st.props)
    let ledger' :=
      if propsChanged then
        addScrubbleNumberEdit
          { sectionId := st.sectionId
            elementPath := st.elementPath
            originalProps := st.props
            newProps := newProps } newId now ledger
      else ledger
    (none, ledger')

/-! ## ScrubbleNumberEditorModal.tsx -/

/-- The modal's input state (`varName`, `defaultValue`, `min`, `max`, `step`)
plus the `error` message state. -/
structure ModalState where
  varName : String
  defaultValue : Rat
  min : Rat
  max : Rat
  step : Rat
  error : Option String
deriving DecidableEq

/-- `validate` (ScrubbleNumberEditorModal.tsx lines 31-46): the error message
set by the first failing check, `none` when the inputs pass. -/
def validateModal (m : ModalState) : Option String :=
  if m.min ≥ m.max then some "Min must be less than max"
  else if m.step ≤ 0 then some "Step must be greater than 0"
  else if m.defaultValue < m.min ∨ m.defaultValue > m.max then
    some "Default value must be between min and max"
  else none

/-- The props object `handleSave` builds:
`{varName: varName || undefined, defaultValue, min, max, step}` — an empty
`varName` becomes `undefined` and is therefore absent from the JSON. -/
def modalNewProps (m : ModalState) : ScrubbleNumberProps :=
  (if m.varName == "" then [] else [(PropKey.varName, PropVal.str m.varName)]) ++
    [(PropKey.defaultValue, PropVal.num m.defaultValue),
     (PropKey.min, PropVal.num m.min),
     (PropKey.max, PropVal.num m.max),
     (PropKey.step, PropVal.num m.step)]

/-- `handleSave` (ScrubbleNumberEditorModal.tsx lines 49-59): refuse the save
when validation fails (the error message is set, nothing else changes);
otherwise clear the error and run `saveScrubbleNumberEdit`. -/
def handleSave (m : ModalState) (editing : Option EditingScrubbleNumber)
    (ledger : List PendingEdit) (newId : String) (now : Nat) :
    ModalState × Option EditingScrubbleNumber × List PendingEdit :=
  match validateModal m with
  | some err => ({ m with error := some err }, editing, ledger)
  | none =>
    let r := saveScrubbleNumberEdit (modalNewProps m) editing ledger newId now
    ({ m with error := none }, r.1, r.2)

/-! ## The marker codec

Decoder: `parseContentWithInlineComponents` (LessonView), scanning for
`\x7b\x7b(inlineScrubbleNumber|inlineDropdown|inlineTextInput):([^\x7d]+)\x7d\x7d`.
Encoder: `extractContentWithMarkers` (SectionInput), a depth-first DOM walk. -/

/-- The `InlineCommandType` union (SlashCommandMenu.tsx), which is also the
set of marker kinds the decoder's regex recognises. -/
inductive InlineCommandType where
  | inlineScrubbleNumber
  | inlineDropdown
  | inlineTextInput
deriving DecidableEq

def kindString : InlineCommandType → String
  | .inlineScrubbleNumber => "inlineScrubbleNumber"
  | .inlineDropdown => "inlineDropdown"
  | .inlineTextInput => "inlineTextInput"

/-- One element of the decoder's output: a literal text segment, or an inline
widget instance.  The React element built for a widget is a function of its
kind and unique id alone (per-kind default parameters), so those two fields
model the instance. -/
inductive ReactPart where
  | text (s : String)
  | widget (kind : InlineCommandType) (uniqueId : String)
deriving DecidableEq

/-- `pattern.isPrefixOf input`, written out so mismatches on concrete string
literals reduce definitionally. -/
def listStartsWith : List Char → List Char → Bool
  | [], _ => true
  | _ :: _, [] => false
  | a :: as, b :: bs => a == b && listStartsWith as bs

/-- Match one alternative of the regex's kind group at the current position:
the literal kind name must follow. -/
def stripKind (s : String) (cs : List Char) : Option (List Char) :=
  if listStartsWith s.data cs then some (cs.drop s.data.length) else none

/-- After `\x7b\x7b<kind>` the regex requires `:`, then `[^\x7d]+` (greedy,
hence `takeWhile`), then `\x7d\x7d`.  Returns the kind, the id characters and
the rest of the input. -/
def finishMarker (k : InlineCommandType) (cs : List Char) :
    Option (InlineCommandType × List Char × List Char) :=
  match cs with
  | c :: rest =>
    if c = ':' then
      let idc := rest.takeWhile (· != '\x7d')
      let r2 := rest.dropWhile (· != '\x7d')
      if idc.isEmpty then none
      else
        match r2 with
        | d1 :: d2 :: tail =>
          if d1 = '\x7d' then if d2 = '\x7d' then some (k, idc, tail) else none
          else none
        | _ => none
    else none
  | [] => none

def tryMarkerKind (k : InlineCommandType) (cs : List Char) :
    Option (InlineCommandType × List Char × List Char) :=
  match stripKind (kindString k) cs with
  | some rest => finishMarker k rest
  | none => none

/-- The kind-group alternation, tried left to right as the regex engine does. -/
def parseAfterBraces (cs : List Char) : Option (InlineCommandType × List Char × List Char) :=
  (tryMarkerKind .inlineScrubbleNumber cs).elim
    ((tryMarkerKind .inlineDropdown cs).elim
      (tryMarkerKind .inlineTextInput cs) some) some

/-- Attempt to match the whole marker regex at the current position. -/
def parseMarkerAt (cs : List Char) : Option (InlineCommandType × List Char × List Char) :=
  match cs with
  | c1 :: c2 :: rest =>
    if c1 = '\x7b' then if c2 = '\x7b' then parseAfterBraces rest else none
    else none
  | _ => none

/-- The characters of the token `\x7b\x7b<kind>:<id>\x7d\x7d`. -/
def markerChars (k : InlineCommandType) (idc : List Char) : List Char :=
  '\x7b' :: '\x7b' :: ((kindString k).data ++ ':' :: (idc ++ ['\x7d', '\x7d']))

theorem listStartsWith_iff {pat l : List Char} :
    listStartsWith pat l = true ↔ ∃ t, l = pat ++ t := by
  induction pat generalizing l with
  | nil => simp [listStartsWith]
  | cons a as ih =>
    cases l with
    | nil => simp [listStartsWith]
    | cons b bs =>
      simp only [listStartsWith, Bool.and_eq_true, beq_iff_eq, ih, List.cons_append,
        List.cons.injEq]
      constructor
      · rintro ⟨rfl, t, rfl⟩; exact ⟨t, rfl, rfl⟩
      · rintro ⟨t, rfl, rfl⟩; exact ⟨rfl, t, rfl⟩

theorem stripKind_eq_some {s : String} {cs rest : List Char}
    (h : stripKind s cs = some rest) : cs = s.data ++ rest := by
  simp only [stripKind] at h
  split at h
  · rename_i hsw
    obtain ⟨t, rfl⟩ := listStartsWith_iff.mp hsw
    simp only [Option.some.injEq] at h
    rw [List.drop_left] at h
    rw [h]
  · exact absurd h (by simp)

theorem finishMarker_eq_some {k k' : InlineCommandType} {cs idc rest : List Char}
    (h : finishMarker k cs = some (k', idc, rest)) :
    k' = k ∧ idc ≠ [] ∧ (∀ c ∈ idc, c ≠ '\x7d') ∧
      cs = ':' :: (idc ++ '\x7d' :: '\x7d' :: rest) := by
  match cs with
  | [] => simp [finishMarker] at h
  | c :: cs' =>
    simp only [finishMarker] at h
    split at h
    next hc =>
      subst hc
      split at h
      next hne => simp at h
      next hne =>
        revert h
        have hsplit := List.takeWhile_append_dropWhile (p := (· != '\x7d')) (l := cs')
        generalize htw : cs'.takeWhile (· != '\x7d') = idc' at hsplit hne ⊢
        generalize hdw : cs'.dropWhile (· != '\x7d') = r2 at hsplit ⊢
        intro h
        split at h
        next d1 d2 tail =>
          split at h
          next hd1 =>
            split at h
            next hd2 =>
              obtain ⟨hk, hid, hrest⟩ : k = k' ∧ idc' = idc ∧ tail = rest := by
                simpa using h
              subst hk hid hrest hd1 hd2
              refine ⟨rfl, by simpa using hne, ?_, by rw [← hsplit]⟩
              intro c hc
              have := List.mem_takeWhile_imp (p := (· != '\x7d'))
                (by rw [htw]; exact hc)
              simpa using this
            next hd2 => simp at h
          next hd1 => simp at h
        next => simp at h
    next hc => simp at h

theorem tryMarkerKind_eq_some {k k' : InlineCommandType} {cs idc rest : List Char}
    (h : tryMarkerKind k cs = some (k', idc, rest)) :
    k' = k ∧ idc ≠ [] ∧ (∀ c ∈ idc, c ≠ '\x7d') ∧
      cs = (kindString k).data ++ ':' :: (idc ++ '\x7d' :: '\x7d' :: rest) := by
  simp only [tryMarkerKind] at h
  split at h
  case h_2 => simp at h
  case h_1 mid hstrip =>
    obtain ⟨hk, hne, hmem, hmid⟩ := finishMarker_eq_some h
    exact ⟨hk, hne, hmem, by rw [stripKind_eq_some hstrip, hmid]⟩

theorem parseAfterBraces_eq_some {k : InlineCommandType} {cs idc rest : List Char}
    (h : parseAfterBraces cs = some (k, idc, rest)) :
    idc ≠ [] ∧ (∀ c ∈ idc, c ≠ '\x7d') ∧
      cs = (kindString k).data ++ ':' :: (idc ++ '\x7d' :: '\x7d' :: rest) := by
  simp only [parseAfterBraces] at h
  cases h1 : tryMarkerKind .inlineScrubbleNumber cs with
  | some v =>
    rw [h1] at h
    obtain ⟨hk, hne, hmem, hcs⟩ := tryMarkerKind_eq_some (h1.trans (by simpa using h))
    exact ⟨hne, hmem, hk ▸ hcs⟩
  | none =>
    rw [h1] at h
    cases h2 : tryMarkerKind .inlineDropdown cs with
    | some v =>
      rw [h2] at h
      obtain ⟨hk, hne, hmem, hcs⟩ := tryMarkerKind_eq_some (h2.trans (by simpa using h))
      exact ⟨hne, hmem, hk ▸ hcs⟩
    | none =>
      rw [h2] at h
      obtain ⟨hk, hne, hmem, hcs⟩ := tryMarkerKind_eq_some (show _ = some (k, idc, rest) by
        simpa using h)
      exact ⟨hne, hmem, hk ▸ hcs⟩

theorem parseMarkerAt_eq_some {k : InlineCommandType} {cs idc rest : List Char}
    (h : parseMarkerAt cs = some (k, idc, rest)) :
    idc ≠ [] ∧ (∀ c ∈ idc, c ≠ '\x7d') ∧ cs = markerChars k idc ++ rest := by
  match cs with
  | [] => simp [parseMarkerAt] at h
  | [c] => simp [parseMarkerAt] at h
  | c1 :: c2 :: body =>
    simp only [parseMarkerAt] at h
    split at h
    case isFalse => simp at h
    case isTrue h1 =>
      split at h
      case isFalse => simp at h
      case isTrue h2 =>
        obtain ⟨hne, hmem, hbody⟩ := parseAfterBraces_eq_some h
        subst h1 h2
        refine ⟨hne, hmem, ?_⟩
        simp [markerChars, hbody]

theorem parseMarkerAt_length {cs idc rest : List Char} {k : InlineCommandType}
    (h : parseMarkerAt cs = some (k, idc, rest)) : rest.length < cs.length := by
  obtain ⟨-, -, hcs⟩ := parseMarkerAt_eq_some h
  subst hcs
  simp [markerChars]
  omega

/-- The `markerRegex.exec` loop of `parseContentWithInlineComponents`: `acc`
holds (reversed) the literal characters accumulated since the previous match;
on a match the pending literal is flushed (only if non-empty, as the JS only
pushes `content.slice(lastIndex, match.index)` when non-empty), the widget is
emitted and scanning resumes after the token; at the end the remaining text
is flushed if non-empty. -/
def scanParts (acc : List Char) (cs : List Char) : List ReactPart :=
  match hm : parseMarkerAt cs with
  | some (k, idc, rest) =>
    (if acc.isEmpty then [] else [ReactPart.text (String.mk acc.reverse)]) ++
      ReactPart.widget k (String.mk idc) :: scanParts [] rest
  | none =>
    match cs with
    | [] => if acc.isEmpty then [] else [ReactPart.text (String.mk acc.reverse)]
    | c :: rest => scanParts (c :: acc) rest
termination_by cs.length
decreasing_by
  · exact parseMarkerAt_length hm
  · simp

/-- `parseContentWithInlineComponents` (LessonView lines 30-96).  When no
part was produced (which happens exactly when `content` is empty) the JS
returns `[content]`. -/
def parseContentWithInlineComponents (content : String) : List ReactPart :=
  let parts := scanParts [] content.data
  if parts.isEmpty then [ReactPart.text content] else parts

/-! ## The encoder: `extractContentWithMarkers` (SectionInput lines 8-31) -/

/-- A DOM node as the encoder sees it: a text node, or an element carrying
the values of its `data-inline-component` / `data-component-id` attributes
(`none` models `getAttribute` returning `null`) and its child nodes. -/
inductive DomNode where
  | textNode (text : String)
  | element (inlineComponent : Option String) (componentId : Option String)
      (children : List DomNode)

/-- JS truthiness of `getAttribute`'s result: `null` and `""` are falsy. -/
def truthyAttr : Option String → Bool
  | none => false
  | some s => !(s == "")

mutual

/-- `processNode`: text nodes contribute their text; an element with both
marker attributes contributes the token and does not recurse; any other
element recurses into its children. -/
def processNode : DomNode → List Char
  | .textNode s => s.data
  | .element ty cid children =>
    if truthyAttr ty && truthyAttr cid then
      '\x7b' :: '\x7b' :: ((ty.getD "").data ++ ':' :: ((cid.getD "").data ++ ['\x7d', '\x7d']))
    else
      processNodes children

def processNodes : List DomNode → List Char
  | [] => []
  | n :: ns => processNode n ++ processNodes ns

end

/-- JS `String.prototype.trim` whitespace, restricted to the common ASCII
whitespace characters. -/
def isJsWhitespace (c : Char) : Bool :=
  c == ' ' || c == '\t' || c == '\n' || c == '\r' || c == '\x0b' || c == '\x0c'

def jsTrimLeft (cs : List Char) : List Char := cs.dropWhile isJsWhitespace

def jsTrimRight (cs : List Char) : List Char := (cs.reverse.dropWhile isJsWhitespace).reverse

def jsTrim (cs : List Char) : List Char := jsTrimRight (jsTrimLeft cs)

/-- `extractContentWithMarkers`: process the element's child nodes and trim
the result. -/
def extractContentWithMarkers (children : List DomNode) : String :=
  String.mk (jsTrim (processNodes children))

/-- Concatenating the parts back: literal text verbatim, a widget as its
token text. -/
def renderPart : ReactPart → List Char
  | .text s => s.data
  | .widget k i => markerChars k i.data

def renderParts (ps : List ReactPart) : List Char :=
  (ps.map renderPart).flatten

/-! ## SlashCommandMenu.tsx: the command registry and filter -/

/-- The `SlashCommandType` union (block-level and inline command ids). -/
inductive SlashCommandType where
  | h1
  | h2
  | h3
  | paragraph
  | quote
  | divider
  | inlineScrubbleNumber
  | inlineDropdown
  | inlineTextInput
deriving DecidableEq

inductive CommandCategory where
  | block
  | inline
deriving DecidableEq

/-- A registry entry.  The `icon` field of the source is a React element used
only for display and carries no behaviour, so it is omitted here. -/
structure SlashCommand where
  id : SlashCommandType
  label : String
  description : String
  keywords : List String
  category : CommandCategory
deriving DecidableEq

/-- The static `slashCommands` registry (SlashCommandMenu.tsx lines 47-122),
in source order. -/
def slashCommands : List SlashCommand :=
  [{ id := .h1, label := "Heading 1", description := "Large section heading",
     keywords := ["h1", "heading", "title", "large"], category := .block },
   { id := .h2, label := "Heading 2", description := "Medium section heading",
     keywords := ["h2", "heading", "subtitle", "medium"], category := .block },
   { id := .h3, label := "Heading 3", description := "Small section heading",
     keywords := ["h3", "heading", "small"], category := .block },
   { id := .paragraph, label := "Paragraph", description := "Plain text paragraph",
     keywords := ["p", "paragraph", "text", "plain"], category := .block },
   { id := .quote, label := "Quote", description := "Capture a quote",
     keywords := ["quote", "blockquote", "citation"], category := .block },
   { id := .divider, label := "Divider", description := "Visual separator",
     keywords := ["divider", "separator", "hr", "line"], category := .block },
   { id := .inlineScrubbleNumber, label := "Scrubble Number",
     description := "Interactive number with drag/click controls",
     keywords := ["number", "scrubble", "stepper", "slider", "inline", "variable"],
     category := .inline },
   { id := .inlineDropdown, label := "Dropdown", description := "Inline dropdown selector",
     keywords := ["dropdown", "select", "choice", "inline", "options"],
     category := .inline },
   { id := .inlineTextInput, label := "Text Input", description := "Inline text input field",
     keywords := ["input", "text", "inline", "field", "type"], category := .inline }]

/-- `String.prototype.toLowerCase`, modelled characterwise (the registry and
queries in scope are ASCII). -/
def jsToLower (s : String) : String := String.mk (s.data.map Char.toLower)

/-- `haystack.includes(needle)`: contiguous-substring containment. -/
def hasSubstring (hay nee : List Char) : Bool :=
  listStartsWith nee hay ||
    (match hay with
     | [] => false
     | _ :: t => hasSubstring t nee)

/-- The filter predicate (SlashCommandMenu.tsx lines 145-152):
`cmd.label.toLowerCase().includes(query) ||
cmd.description.toLowerCase().includes(query) ||
cmd.keywords.some(kw => kw.includes(query))` with
`query = searchQuery.toLowerCase()`. -/
def commandMatches (searchQuery : String) (cmd : SlashCommand) : Bool :=
  let query := jsToLower searchQuery
  hasSubstring (jsToLower cmd.label).data query.data ||
    hasSubstring (jsToLower cmd.description).data query.data ||
    cmd.keywords.any fun kw => hasSubstring kw.data query.data

/-- `filteredCommands` (SlashCommandMenu.tsx line 145). -/
def filteredCommands (searchQuery : String) : List SlashCommand :=
  slashCommands.filter (commandMatches searchQuery)

/-! ## SectionInput.handleInput (the slash-trigger transition) -/

/-- The `BlockCommandType` union. -/
inductive BlockCommandType where
  | h1
  | h2
  | h3
  | paragraph
  | quote
  | divider
deriving DecidableEq

/-- The region state `handleInput` touches: the three menu states
(`showSlashMenu`, `slashQuery`, `slashPositionRef`, the latter's `-1`
sentinel modelled as `none`), the selected block variant and the
`data-placeholder` attribute. -/
structure RegionState where
  showSlashMenu : Bool
  slashQuery : String
  slashPosition : Option Nat
  selectedBlockType : Option BlockCommandType
  placeholder : String
deriving DecidableEq

/-- `text.replace(/[\n\r]+$/, "")`. -/
def stripTrailingNewlines (cs : List Char) : List Char :=
  (cs.reverse.dropWhile (fun c => c == '\n' || c == '\r')).reverse

/-- `text.lastIndexOf("/")`, with `none` for `-1`. -/
def lastIndexOfChar (c : Char) : List Char → Option Nat
  | [] => none
  | a :: rest =>
    match lastIndexOfChar c rest with
    | some k => some (k + 1)
    | none => if a == c then some 0 else none

/-- `handleInput` (SectionInput lines 66-108) as a state transition on the
text read from the contentEditable element. -/
def handleInput (defaultPlaceholder : String) (raw : List Char) (st : RegionState) :
    RegionState :=
  let text := stripTrailingNewlines raw
  if text.isEmpty then
    { st with
      showSlashMenu := false
      slashQuery := ""
      slashPosition := none
      selectedBlockType := none
      placeholder := if st.selectedBlockType.isSome then defaultPlaceholder else st.placeholder }
  else
    match lastIndexOfChar '/' text with
    | some i =>
      let queryAfterSlash := text.drop (i + 1)
      if queryAfterSlash.any (· == ' ') then
        { st with showSlashMenu := false, slashQuery := "", slashPosition := none }
      else
        { st with
          showSlashMenu := true
          slashQuery := String.mk queryAfterSlash
          slashPosition := some i }
    | none => { st with showSlashMenu := false, slashQuery := "", slashPosition := none }

/-! ## Specification-side predicates (written from the spec's words, to be
compared with the code model) -/

/-- The dedup invariant of spec §3: at most one Text edit per
`(sectionId, elementPath)`, one Equation edit per `(sectionId, originalLatex)`,
one NumericWidget edit per `(sectionId, elementPath)`, and one Structure-add
edit per `sectionId`. -/
def DedupInvariant (l : List PendingEdit) : Prop :=
  (∀ sid path, l.countP (isTextFor sid path) ≤ 1) ∧
    (∀ sid ol, l.countP (isEquationFor sid ol) ≤ 1) ∧
    (∀ sid path, l.countP (isScrubbleFor sid path) ≤ 1) ∧
    (∀ sid, l.countP (isStructAddFor sid) ≤ 1)

/-- The text auto-revert condition as the claim states it: the new text equals
the captured original, and when both the call's `newHtml` and the edit's
`originalHtml` are supplied, they are equal. -/
def specTextRevertCondition (edit : TextEditInput) (existing : TextEdit) : Prop :=
  edit.newText = existing.originalText ∧
    (edit.newHtml.isSome → existing.originalHtml.isSome →
      edit.newHtml = existing.originalHtml)

/-- The value (or absence) a props object holds at a key. -/
def lookupProp (k : PropKey) (p : ScrubbleNumberProps) : Option PropVal :=
  (p.find? fun kv => kv.1 == k).map Prod.snd

/-- Order-insensitive deep equality of props objects, as the claim states it:
the same value or absence at each of the five keys, regardless of property
ordering. -/
def propsDeepEqual (p q : ScrubbleNumberProps) : Prop :=
  ∀ k, lookupProp k p = lookupProp k q

/-- A substring occurrence (the spec's "substring, not prefix, not fuzzy"). -/
def SpecSubstring (nee hay : List Char) : Prop :=
  ∃ l₁ l₂, hay = l₁ ++ nee ++ l₂

/-- A command matches a query, as the spec states it: case-insensitively, the
query is a substring of the label, of the description, or of some keyword. -/
def specCommandMatches (query : String) (cmd : SlashCommand) : Prop :=
  SpecSubstring (jsToLower query).data (jsToLower cmd.label).data ∨
    SpecSubstring (jsToLower query).data (jsToLower cmd.description).data ∨
    ∃ kw ∈ cmd.keywords, SpecSubstring (jsToLower query).data (jsToLower kw).data

/-- `p` is the index of the last `/` of `text`, as the claim states it. -/
def IsLastSlashIndex (text : List Char) (p : Nat) : Prop :=
  text.get? p = some '/' ∧ ∀ j, p < j → text.get? j ≠ some '/'

/-! # Lemmas about the `findIndex`-update pattern -/

theorem updateFirstWith_eq_none_iff {test : PendingEdit → Bool}
    {f : PendingEdit → Option PendingEdit} {l : List PendingEdit} :
    updateFirstWith test f l = none ↔ ∀ x ∈ l, test x = false := by
  induction l with
  | nil => simp [updateFirstWith]
  | cons e rest ih =>
    simp only [updateFirstWith]
    split
    · rename_i he
      simp only [List.mem_cons]
      constructor
      · intro h; exact absurd h (by simp)
      · intro h; exact absurd (h e (Or.inl rfl)) (by simp [he])
    · rename_i he
      rw [Option.map_eq_none', ih]
      simp only [List.mem_cons]
      constructor
      · rintro h x (rfl | hx)
        · simpa using he
        · exact h x hx
      · intro h x hx
        exact h x (Or.inr hx)

theorem updateFirstWith_append {test : PendingEdit → Bool}
    {f : PendingEdit → Option PendingEdit} (l₁ : List PendingEdit) (x : PendingEdit)
    (l₂ : List PendingEdit) (h₁ : ∀ y ∈ l₁, test y = false) (h₂ : test x = true) :
    updateFirstWith test f (l₁ ++ x :: l₂) =
      some (l₁ ++ (f x).elim l₂ (· :: l₂)) := by
  induction l₁ with
  | nil => simp [updateFirstWith, h₂]
  | cons e rest ih =>
    have he : test e = false := h₁ e (by simp)
    simp only [List.cons_append, updateFirstWith]
    rw [if_neg (by simp [he])]
    rw [List.append_eq, ih fun y hy => h₁ y (by simp [hy])]
    rfl

theorem updateFirstWith_eq_some {test : PendingEdit → Bool}
    {f : PendingEdit → Option PendingEdit} {l l' : List PendingEdit}
    (h : updateFirstWith test f l = some l') :
    ∃ l₁ x l₂, l = l₁ ++ x :: l₂ ∧ (∀ y ∈ l₁, test y = false) ∧ test x = true ∧
      l' = l₁ ++ (f x).elim l₂ (· :: l₂) := by
  induction l generalizing l' with
  | nil => simp [updateFirstWith] at h
  | cons e rest ih =>
    simp only [updateFirstWith] at h
    split at h
    · rename_i he
      exact ⟨[], e, rest, by simp, by simp, he, by simpa using h.symm⟩
    · rename_i he
      obtain ⟨r', hr', heq⟩ := Option.map_eq_some'.mp h
      obtain ⟨l₁, x, l₂, rfl, hl₁, hx, rfl⟩ := ih hr'
      refine ⟨e :: l₁, x, l₂, rfl, ?_, hx, heq.symm⟩
      intro y hy
      rcases List.mem_cons.mp hy with rfl | hy
      · simpa using he
      · exact hl₁ y hy

theorem countP_updateFirstWith_le {test : PendingEdit → Bool}
    {f : PendingEdit → Option PendingEdit} {l l' : List PendingEdit}
    (p : PendingEdit → Bool) (h : updateFirstWith test f l = some l')
    (hf : ∀ x x', test x = true → f x = some x' → p x' = p x) :
    l'.countP p ≤ l.countP p := by
  obtain ⟨l₁, x, l₂, rfl, hl₁, hx, rfl⟩ := updateFirstWith_eq_some h
  cases hfx : f x with
  | none =>
    simp only [hfx, Option.elim, List.countP_append, List.countP_cons]
    omega
  | some x' =>
    have hpx := hf x x' hx hfx
    simp only [hfx, Option.elim, List.countP_append, List.countP_cons, hpx]
    omega

/-- The four key predicates take the same value on `x'` as on `x`. -/
def KeyStable (x x' : PendingEdit) : Prop :=
  (∀ sid path, isTextFor sid path x' = isTextFor sid path x) ∧
    (∀ sid ol, isEquationFor sid ol x' = isEquationFor sid ol x) ∧
    (∀ sid path, isScrubbleFor sid path x' = isScrubbleFor sid path x) ∧
    (∀ sid, isStructAddFor sid x' = isStructAddFor sid x)

theorem dedup_of_update {test : PendingEdit → Bool}
    {f : PendingEdit → Option PendingEdit} {l l' : List PendingEdit}
    (hInv : DedupInvariant l) (h : updateFirstWith test f l = some l')
    (hf : ∀ x x', test x = true → f x = some x' → KeyStable x x') :
    DedupInvariant l' := by
  obtain ⟨h1, h2, h3, h4⟩ := hInv
  refine ⟨fun sid path => ?_, fun sid ol => ?_, fun sid path => ?_, fun sid => ?_⟩
  · exact le_trans
      (countP_updateFirstWith_le _ h fun x x' hx hfx => (hf x x' hx hfx).1 sid path)
      (h1 sid path)
  · exact le_trans
      (countP_updateFirstWith_le _ h fun x x' hx hfx => (hf x x' hx hfx).2.1 sid ol)
      (h2 sid ol)
  · exact le_trans
      (countP_updateFirstWith_le _ h fun x x' hx hfx => (hf x x' hx hfx).2.2.1 sid path)
      (h3 sid path)
  · exact le_trans
      (countP_updateFirstWith_le _ h fun x x' hx hfx => (hf x x' hx hfx).2.2.2 sid)
      (h4 sid)

theorem keyStable_absorb {txt : String} {now : Nat} {x x' : PendingEdit}
    (h : absorbIntoStructureAdd txt now x = some x') : KeyStable x x' := by
  cases x with
  | «structure» s =>
    obtain rfl : PendingEdit.«structure» { s with content := some txt, timestamp := now } = x' := by
      simpa [absorbIntoStructureAdd] using h
    exact ⟨fun _ _ => rfl, fun _ _ => rfl, fun _ _ => rfl, fun _ => rfl⟩
  | text t =>
    obtain rfl : PendingEdit.text t = x' := by simpa [absorbIntoStructureAdd] using h
    exact ⟨fun _ _ => rfl, fun _ _ => rfl, fun _ _ => rfl, fun _ => rfl⟩
  | equation q =>
    obtain rfl : PendingEdit.equation q = x' := by simpa [absorbIntoStructureAdd] using h
    exact ⟨fun _ _ => rfl, fun _ _ => rfl, fun _ _ => rfl, fun _ => rfl⟩
  | scrubbleNumber n =>
    obtain rfl : PendingEdit.scrubbleNumber n = x' := by
      simpa [absorbIntoStructureAdd] using h
    exact ⟨fun _ _ => rfl, fun _ _ => rfl, fun _ _ => rfl, fun _ => rfl⟩

theorem keyStable_textUpdate {e : TextEditInput} {now : Nat} {x x' : PendingEdit}
    (h : applyTextUpdate e now x = some x') : KeyStable x x' := by
  cases x with
  | text t =>
    simp only [applyTextUpdate] at h
    split at h
    · exact absurd h (by simp)
    · obtain rfl : PendingEdit.text
          { t with newText := e.newText, newHtml := e.newHtml, timestamp := now } = x' := by
        simpa using h
      exact ⟨fun _ _ => rfl, fun _ _ => rfl, fun _ _ => rfl, fun _ => rfl⟩
  | «structure» s =>
    obtain rfl : PendingEdit.«structure» s = x' := by simpa [applyTextUpdate] using h
    exact ⟨fun _ _ => rfl, fun _ _ => rfl, fun _ _ => rfl, fun _ => rfl⟩
  | equation q =>
    obtain rfl : PendingEdit.equation q = x' := by simpa [applyTextUpdate] using h
    exact ⟨fun _ _ => rfl, fun _ _ => rfl, fun _ _ => rfl, fun _ => rfl⟩
  | scrubbleNumber n =>
    obtain rfl : PendingEdit.scrubbleNumber n = x' := by simpa [applyTextUpdate] using h
    exact ⟨fun _ _ => rfl, fun _ _ => rfl, fun _ _ => rfl, fun _ => rfl⟩

theorem keyStable_equationUpdate {e : EquationEditInput} {now : Nat} {x x' : PendingEdit}
    (h : applyEquationUpdate e now x = some x') : KeyStable x x' := by
  cases x with
  | equation q =>
    simp only [applyEquationUpdate] at h
    split at h
    · exact absurd h (by simp)
    · obtain rfl : PendingEdit.equation
          { q with newLatex := e.newLatex, colorMap := e.colorMap, timestamp := now } = x' := by
        simpa using h
      exact ⟨fun _ _ => rfl, fun _ _ => rfl, fun _ _ => rfl, fun _ => rfl⟩
  | «structure» s =>
    obtain rfl : PendingEdit.«structure» s = x' := by simpa [applyEquationUpdate] using h
    exact ⟨fun _ _ => rfl, fun _ _ => rfl, fun _ _ => rfl, fun _ => rfl⟩
  | text t =>
    obtain rfl : PendingEdit.text t = x' := by simpa [applyEquationUpdate] using h
    exact ⟨fun _ _ => rfl, fun _ _ => rfl, fun _ _ => rfl, fun _ => rfl⟩
  | scrubbleNumber n =>
    obtain rfl : PendingEdit.scrubbleNumber n = x' := by simpa [applyEquationUpdate] using h
    exact ⟨fun _ _ => rfl, fun _ _ => rfl, fun _ _ => rfl, fun _ => rfl⟩

theorem keyStable_scrubbleUpdate {e : ScrubbleNumberEditInput} {now : Nat}
    {x x' : PendingEdit} (h : applyScrubbleUpdate e now x = some x') : KeyStable x x' := by
  cases x with
  | scrubbleNumber n =>
    simp only [applyScrubbleUpdate] at h
    split at h
    · exact absurd h (by simp)
    · obtain rfl : PendingEdit.scrubbleNumber
          { n with newProps := e.newProps, timestamp := now } = x' := by
        simpa using h
      exact ⟨fun _ _ => rfl, fun _ _ => rfl, fun _ _ => rfl, fun _ => rfl⟩
  | «structure» s =>
    obtain rfl : PendingEdit.«structure» s = x' := by simpa [applyScrubbleUpdate] using h
    exact ⟨fun _ _ => rfl, fun _ _ => rfl, fun _ _ => rfl, fun _ => rfl⟩
  | text t =>
    obtain rfl : PendingEdit.text t = x' := by simpa [applyScrubbleUpdate] using h
    exact ⟨fun _ _ => rfl, fun _ _ => rfl, fun _ _ => rfl, fun _ => rfl⟩
  | equation q =>
    obtain rfl : PendingEdit.equation q = x' := by simpa [applyScrubbleUpdate] using h
    exact ⟨fun _ _ => rfl, fun _ _ => rfl, fun _ _ => rfl, fun _ => rfl⟩

theorem keyStable_mergeStructure {e : StructureEditInput} {now : Nat}
    {x x' : PendingEdit} (ha : e.action = .add)
    (ht : isStructAddFor e.sectionId x = true)
    (h : mergeStructure e now x = some x') : KeyStable x x' := by
  cases x with
  | «structure» s =>
    simp only [isStructAddFor, Bool.and_eq_true, beq_iff_eq] at ht
    obtain ⟨hadd, hsid⟩ := ht
    have hact : s.action = .add := by
      revert hadd
      cases s.action <;> simp
    obtain rfl : PendingEdit.«structure»
        { s with
          action := e.action
          sectionId := e.sectionId.elim s.sectionId some
          sectionIds := e.sectionIds.elim s.sectionIds some
          content := e.content.elim s.content some
          blockType := e.blockType.elim s.blockType some
          timestamp := now } = x' := by
      simpa [mergeStructure] using h
    have hsec : e.sectionId.elim s.sectionId some = s.sectionId := by
      cases hs : e.sectionId with
      | none => simp
      | some a => simp [hsid, hs]
    refine ⟨fun _ _ => rfl, fun _ _ => rfl, fun _ _ => rfl, fun sid => ?_⟩
    simp [isStructAddFor, ha, hact, hsec]
  | text t => simp [isStructAddFor] at ht
  | equation q => simp [isStructAddFor] at ht
  | scrubbleNumber n => simp [isStructAddFor] at ht

theorem dedupInvariant_nil : DedupInvariant [] :=
  ⟨fun _ _ => by simp, fun _ _ => by simp, fun _ _ => by simp, fun _ => by simp⟩

theorem dedup_addTextEdit (l : List PendingEdit) (hInv : DedupInvariant l)
    (e : TextEditInput) (nid : String) (now : Nat) :
    DedupInvariant (addTextEdit e nid now l) := by
  unfold addTextEdit
  cases h1 : updateFirstWith (isStructAddFor (some e.sectionId))
      (absorbIntoStructureAdd e.newText now) l with
  | some updated => exact dedup_of_update hInv h1 fun x x' _ hfx => keyStable_absorb hfx
  | none =>
    cases h2 : updateFirstWith (isTextFor e.sectionId e.elementPath)
        (applyTextUpdate e now) l with
    | some updated => exact dedup_of_update hInv h2 fun x x' _ hfx => keyStable_textUpdate hfx
    | none =>
      have hz := updateFirstWith_eq_none_iff.mp h2
      obtain ⟨hT, hE, hS, hA⟩ := hInv
      refine ⟨fun sid path => ?_, fun sid ol => ?_, fun sid path => ?_, fun sid => ?_⟩
      · rw [List.countP_append]
        by_cases hp : isTextFor sid path (.text (newTextEdit e nid now)) = true
        · have hkey : e.sectionId = sid ∧ e.elementPath = path := by
            simpa [isTextFor, newTextEdit] using hp
          obtain ⟨rfl, rfl⟩ := hkey
          have h0 : l.countP (isTextFor e.sectionId e.elementPath) = 0 :=
            List.countP_eq_zero.mpr (by intro a ha; simp [hz a ha])
          simp [h0, hp]
        · have hp' : isTextFor sid path (.text (newTextEdit e nid now)) = false := by
            simpa using hp
          simpa [hp'] using hT sid path
      · rw [List.countP_append]
        simpa [isEquationFor] using hE sid ol
      · rw [List.countP_append]
        simpa [isScrubbleFor] using hS sid path
      · rw [List.countP_append]
        simpa [isStructAddFor] using hA sid

theorem dedup_addEquationEdit (l : List PendingEdit) (hInv : DedupInvariant l)
    (e : EquationEditInput) (nid : String) (now : Nat) :
    DedupInvariant (addEquationEdit e nid now l) := by
  unfold addEquationEdit
  cases h1 : updateFirstWith (isEquationFor e.sectionId e.originalLatex)
      (applyEquationUpdate e now) l with
  | some updated => exact dedup_of_update hInv h1 fun x x' _ hfx => keyStable_equationUpdate hfx
  | none =>
    have hz := updateFirstWith_eq_none_iff.mp h1
    obtain ⟨hT, hE, hS, hA⟩ := hInv
    refine ⟨fun sid path => ?_, fun sid ol => ?_, fun sid path => ?_, fun sid => ?_⟩
    · rw [List.countP_append]
      simpa [isTextFor] using hT sid path
    · rw [List.countP_append]
      by_cases hp : isEquationFor sid ol (.equation (newEquationEdit e nid now)) = true
      · have hkey : e.sectionId = sid ∧ e.originalLatex = ol := by
          simpa [isEquationFor, newEquationEdit] using hp
        obtain ⟨rfl, rfl⟩ := hkey
        have h0 : l.countP (isEquationFor e.sectionId e.originalLatex) = 0 :=
          List.countP_eq_zero.mpr (by intro a ha; simp [hz a ha])
        simp [h0, hp]
      · have hp' : isEquationFor sid ol (.equation (newEquationEdit e nid now)) = false := by
          simpa using hp
        simpa [hp'] using hE sid ol
    · rw [List.countP_append]
      simpa [isScrubbleFor] using hS sid path
    · rw [List.countP_append]
      simpa [isStructAddFor] using hA sid

theorem dedup_addScrubbleNumberEdit (l : List PendingEdit) (hInv : DedupInvariant l)
    (e : ScrubbleNumberEditInput) (nid : String) (now : Nat) :
    DedupInvariant (addScrubbleNumberEdit e nid now l) := by
  unfold addScrubbleNumberEdit
  cases h1 : updateFirstWith (isScrubbleFor e.sectionId e.elementPath)
      (applyScrubbleUpdate e now) l with
  | some updated => exact dedup_of_update hInv h1 fun x x' _ hfx => keyStable_scrubbleUpdate hfx
  | none =>
    have hz := updateFirstWith_eq_none_iff.mp h1
    obtain ⟨hT, hE, hS, hA⟩ := hInv
    refine ⟨fun sid path => ?_, fun sid ol => ?_, fun sid path => ?_, fun sid => ?_⟩
    · rw [List.countP_append]
      simpa [isTextFor] using hT sid path
    · rw [List.countP_append]
      simpa [isEquationFor] using hE sid ol
    · rw [List.countP_append]
      by_cases hp : isScrubbleFor sid path (.scrubbleNumber (newScrubbleNumberEdit e nid now)) = true
      · have hkey : e.sectionId = sid ∧ e.elementPath = path := by
          simpa [isScrubbleFor, newScrubbleNumberEdit] using hp
        obtain ⟨rfl, rfl⟩ := hkey
        have h0 : l.countP (isScrubbleFor e.sectionId e.elementPath) = 0 :=
          List.countP_eq_zero.mpr (by intro a ha; simp [hz a ha])
        simp [h0, hp]
      · have hp' :
            isScrubbleFor sid path (.scrubbleNumber (newScrubbleNumberEdit e nid now)) = false := by
          simpa using hp
        simpa [hp'] using hS sid path
    · rw [List.countP_append]
      simpa [isStructAddFor] using hA sid

theorem dedup_addStructureEdit (l : List PendingEdit) (hInv : DedupInvariant l)
    (e : StructureEditInput) (nid : String) (now : Nat) :
    DedupInvariant (addStructureEdit e nid now l) := by
  unfold addStructureEdit
  cases ha : e.action with
  | add =>
    cases h1 : updateFirstWith (isStructAddFor e.sectionId) (mergeStructure e now) l with
    | some updated =>
      exact dedup_of_update hInv h1 fun x x' hx hfx => keyStable_mergeStructure ha hx hfx
    | none =>
      have hz := updateFirstWith_eq_none_iff.mp h1
      obtain ⟨hT, hE, hS, hA⟩ := hInv
      refine ⟨fun sid path => ?_, fun sid ol => ?_, fun sid path => ?_, fun sid => ?_⟩
      · rw [List.countP_append]
        simpa [isTextFor] using hT sid path
      · rw [List.countP_append]
        simpa [isEquationFor] using hE sid ol
      · rw [List.countP_append]
        simpa [isScrubbleFor] using hS sid path
      · rw [List.countP_append]
        by_cases hp : isStructAddFor sid (.«structure» (newStructureEdit e nid now)) = true
        · have hkey : e.sectionId = sid := by
            simpa [isStructAddFor, newStructureEdit, ha] using hp
          subst hkey
          have h0 : l.countP (isStructAddFor e.sectionId) = 0 :=
            List.countP_eq_zero.mpr (by intro a hmem; simp [hz a hmem])
          simp [h0, hp]
        · have hp' : isStructAddFor sid (.«structure» (newStructureEdit e nid now)) = false := by
            simpa using hp
          simpa [hp'] using hA sid
  | delete =>
    obtain ⟨hT, hE, hS, hA⟩ := hInv
    refine ⟨fun sid path => ?_, fun sid ol => ?_, fun sid path => ?_, fun sid => ?_⟩
    · rw [List.countP_append]
      simpa [isTextFor] using hT sid path
    · rw [List.countP_append]
      simpa [isEquationFor] using hE sid ol
    · rw [List.countP_append]
      simpa [isScrubbleFor] using hS sid path
    · rw [List.countP_append]
      simpa [isStructAddFor, newStructureEdit, ha] using hA sid
  | reorder =>
    obtain ⟨hT, hE, hS, hA⟩ := hInv
    refine ⟨fun sid path => ?_, fun sid ol => ?_, fun sid path => ?_, fun sid => ?_⟩
    · rw [List.countP_append]
      simpa [isTextFor] using hT sid path
    · rw [List.countP_append]
      simpa [isEquationFor] using hE sid ol
    · rw [List.countP_append]
      simpa [isScrubbleFor] using hS sid path
    · rw [List.countP_append]
      simpa [isStructAddFor, newStructureEdit, ha] using hA sid

theorem dedup_removeEdit (l : List PendingEdit) (hInv : DedupInvariant l) (eid : String) :
    DedupInvariant (removeEdit eid l) := by
  obtain ⟨hT, hE, hS, hA⟩ := hInv
  have hsub : ∀ p : PendingEdit → Bool, (removeEdit eid l).countP p ≤ l.countP p := by
    intro p
    exact (List.filter_sublist l).countP_le p
  exact ⟨fun sid path => le_trans (hsub _) (hT sid path),
    fun sid ol => le_trans (hsub _) (hE sid ol),
    fun sid path => le_trans (hsub _) (hS sid path),
    fun sid => le_trans (hsub _) (hA sid)⟩

/-- If some check fails, `validate` returns an error message. -/
theorem validateModal_isSome {m : ModalState}
    (hviol : m.min ≥ m.max ∨ m.step ≤ 0 ∨ m.defaultValue < m.min ∨ m.defaultValue > m.max) :
    (validateModal m).isSome = true := by
  unfold validateModal
  split_ifs with h1 h2 h3
  · simp
  · simp
  · simp
  · exfalso
    rcases hviol with h | h | h | h
    · exact h1 h
    · exact h2 h
    · exact h3 (Or.inl h)
    · exact h3 (Or.inr h)

/-! # Claim theorems -/

/-- C1: Absorption — when the ledger holds a pending Structure edit with
action `add` for the call's `sectionId`, `addTextEdit` overwrites that edit's
`content` with the call's `newText` and refreshes its timestamp, creating no
separate Text edit (the rest of the ledger is untouched); in particular
`addStructureEdit(add, sectionId=S)` followed by
`addTextEdit(sectionId=S, newText="X")` on an empty ledger leaves exactly the
single entry `Structure{action: add, content: "X"}`. -/
theorem claim_C1_textEdit_absorption :
    (∀ (l₁ l₂ : List PendingEdit) (s : StructureEdit) (e : TextEditInput)
        (nid : String) (now : Nat),
      (∀ y ∈ l₁, isStructAddFor (some e.sectionId) y = false) →
      isStructAddFor (some e.sectionId) (.«structure» s) = true →
      addTextEdit e nid now (l₁ ++ .«structure» s :: l₂) =
        l₁ ++ .«structure» { s with content := some e.newText, timestamp := now } :: l₂) ∧
    addTextEdit
        { sectionId := "S", elementPath := "p", originalText := "",
          originalHtml := none, newText := "X", newHtml := none } "id2" 2
        (addStructureEdit
          { action := .add, sectionId := some "S", sectionIds := none,
            content := none, blockType := none } "id1" 1 []) =
      [.«structure»
        { id := "id1", action := .add, sectionId := some "S", sectionIds := none,
          content := some "X", blockType := none, timestamp := 2 }] := by
  constructor
  · intro l₁ l₂ s e nid now h₁ h₂
    unfold addTextEdit
    rw [updateFirstWith_append l₁ (.«structure» s) l₂ h₁ h₂]
    simp [absorbIntoStructureAdd]
  · rfl

/-- C1 witness: the absorption clause applied at a concrete ledger. -/
theorem claim_C1_textEdit_absorption_witness :
    addTextEdit
        { sectionId := "S", elementPath := "p", originalText := "o",
          originalHtml := none, newText := "N", newHtml := none } "idN" 7
        [PendingEdit.«structure»
          { id := "i0", action := .add, sectionId := some "S", sectionIds := none,
            content := some "old", blockType := none, timestamp := 3 }] =
      [PendingEdit.«structure»
        { id := "i0", action := .add, sectionId := some "S", sectionIds := none,
          content := some "N", blockType := none, timestamp := 7 }] := by
  have h := claim_C1_textEdit_absorption.1 [] []
    { id := "i0", action := .add, sectionId := some "S", sectionIds := none,
      content := some "old", blockType := none, timestamp := 3 }
    { sectionId := "S", elementPath := "p", originalText := "o",
      originalHtml := none, newText := "N", newHtml := none } "idN" 7
    (by simp) (by decide)
  simpa using h

/-- C2 counterexample: the claim reads revert as "when both the call's
`newHtml` and the edit's `originalHtml` are supplied, they must be equal".
With `newHtml = ""` (supplied but empty) and a non-empty `originalHtml`, the
spec condition is false — the claim demands an in-place update — yet the
code's truthiness test `!edit.newHtml` treats `""` as absent and removes the
edit. -/
theorem claim_C2_counterexample :
    ¬ specTextRevertCondition
        { sectionId := "s", elementPath := "p", originalText := "A", originalHtml := none,
          newText := "A", newHtml := some "" }
        { id := "e1", sectionId := "s", elementPath := "p", originalText := "A",
          originalHtml := some "<b>A</b>", newText := "B", newHtml := some "<b>B</b>",
          timestamp := 1 } ∧
      addTextEdit
          { sectionId := "s", elementPath := "p", originalText := "A", originalHtml := none,
            newText := "A", newHtml := some "" } "id2" 2
          [.text
            { id := "e1", sectionId := "s", elementPath := "p", originalText := "A",
              originalHtml := some "<b>A</b>", newText := "B", newHtml := some "<b>B</b>",
              timestamp := 1 }] = [] := by
  constructor
  · rintro ⟨h1, h2⟩
    have := h2 (by simp) (by simp)
    simp at this
  · rfl

/-- C2 (amended): with no pending Structure-add for the sectionId and an
existing Text edit for the key, `addTextEdit` removes the edit when the new
text equals the captured original and, additionally, the call's `newHtml` is
absent or empty, or the edit's `originalHtml` is absent or empty, or the two
are equal (`isReverted`); otherwise it updates `newText`/`newHtml` in place,
preserving the original snapshot and id.  The two-call revert sequence of the
claim holds. -/
theorem claim_C2_text_autoRevert :
    (∀ (l₁ l₂ : List PendingEdit) (t : TextEdit) (e : TextEditInput)
        (nid : String) (now : Nat),
      (∀ y ∈ l₁ ++ PendingEdit.text t :: l₂, isStructAddFor (some e.sectionId) y = false) →
      (∀ y ∈ l₁, isTextFor e.sectionId e.elementPath y = false) →
      isTextFor e.sectionId e.elementPath (.text t) = true →
      addTextEdit e nid now (l₁ ++ .text t :: l₂) =
        if isReverted e t then l₁ ++ l₂
        else l₁ ++
          .text { t with newText := e.newText, newHtml := e.newHtml, timestamp := now } ::
            l₂) ∧
    addTextEdit
        { sectionId := "t", elementPath := "e", originalText := "B",
          originalHtml := none, newText := "A", newHtml := none } "id2" 2
        (addTextEdit
          { sectionId := "t", elementPath := "e", originalText := "A",
            originalHtml := none, newText := "B", newHtml := none } "id1" 1 []) = [] := by
  constructor
  · intro l₁ l₂ t e nid now hs ht1 ht2
    unfold addTextEdit
    rw [updateFirstWith_eq_none_iff.mpr hs]
    rw [updateFirstWith_append l₁ (.text t) l₂ ht1 ht2]
    by_cases hr : isReverted e t = true
    · simp [applyTextUpdate, hr]
    · simp [applyTextUpdate, hr]
  · rfl

/-- C2 witness: a pure-text revert (no HTML) removes the edit. -/
theorem claim_C2_text_autoRevert_witness :
    addTextEdit
        { sectionId := "s", elementPath := "p", originalText := "A",
          originalHtml := none, newText := "A", newHtml := none } "w" 9
        [.text
          { id := "t1", sectionId := "s", elementPath := "p", originalText := "A",
            originalHtml := none, newText := "B", newHtml := none, timestamp := 1 }] = [] := by
  have h := claim_C2_text_autoRevert.1 [] []
    { id := "t1", sectionId := "s", elementPath := "p", originalText := "A",
      originalHtml := none, newText := "B", newHtml := none, timestamp := 1 }
    { sectionId := "s", elementPath := "p", originalText := "A",
      originalHtml := none, newText := "A", newHtml := none } "w" 9
    (by decide) (by simp) (by decide)
  simpa using h

/-- C3: every ledger-mutating operation preserves the dedup invariant (at
most one Text edit per `(sectionId, elementPath)`, one Equation edit per
`(sectionId, originalLatex)`, one scrubbleNumber edit per
`(sectionId, elementPath)`, one Structure-add edit per `sectionId`), and a
Structure edit with action `delete` or `reorder` always appends a fresh
entry, never deduplicating. -/
theorem claim_C3_dedup_invariant :
    (∀ l, DedupInvariant l → ∀ e nid now, DedupInvariant (addTextEdit e nid now l)) ∧
    (∀ l, DedupInvariant l → ∀ e nid now, DedupInvariant (addEquationEdit e nid now l)) ∧
    (∀ l, DedupInvariant l → ∀ e nid now, DedupInvariant (addScrubbleNumberEdit e nid now l)) ∧
    (∀ l, DedupInvariant l → ∀ e nid now, DedupInvariant (addStructureEdit e nid now l)) ∧
    (∀ l, DedupInvariant l → ∀ eid, DedupInvariant (removeEdit eid l)) ∧
    (∀ l, DedupInvariant l → DedupInvariant (clearAllEdits l)) ∧
    (∀ (l : List PendingEdit) (e : StructureEditInput) (nid : String) (now : Nat),
      e.action = .delete ∨ e.action = .reorder →
      addStructureEdit e nid now l = l ++ [.«structure» (newStructureEdit e nid now)]) := by
  refine ⟨fun l h e nid now => dedup_addTextEdit l h e nid now,
    fun l h e nid now => dedup_addEquationEdit l h e nid now,
    fun l h e nid now => dedup_addScrubbleNumberEdit l h e nid now,
    fun l h e nid now => dedup_addStructureEdit l h e nid now,
    fun l h eid => dedup_removeEdit l h eid,
    fun l _ => dedupInvariant_nil,
    ?_⟩
  intro l e nid now h
  unfold addStructureEdit
  rcases h with h | h <;> rw [h]

/-- C3 witness: the invariant after a concrete `addTextEdit` on the empty
ledger. -/
theorem claim_C3_dedup_invariant_witness :
    DedupInvariant (addTextEdit
      { sectionId := "a", elementPath := "b", originalText := "x",
        originalHtml := none, newText := "y", newHtml := none } "i1" 1 []) :=
  claim_C3_dedup_invariant.1 [] dedupInvariant_nil
    { sectionId := "a", elementPath := "b", originalText := "x",
      originalHtml := none, newText := "y", newHtml := none } "i1" 1

/-- C4 counterexample: the props objects
`{varName: "x", min: 0}` and `{min: 0, varName: "x"}` are deeply equal at all
five keys, yet `addScrubbleNumberEdit` does not remove the matching edit —
the code compares `JSON.stringify` outputs, which differ when the key order
differs, so the edit is updated in place instead. -/
theorem claim_C4_counterexample :
    propsDeepEqual
        [(PropKey.min, PropVal.num 0), (PropKey.varName, PropVal.str "x")]
        [(PropKey.varName, PropVal.str "x"), (PropKey.min, PropVal.num 0)] ∧
      addScrubbleNumberEdit
          { sectionId := "s", elementPath := "p",
            originalProps := [(PropKey.varName, PropVal.str "x"), (PropKey.min, PropVal.num 0)],
            newProps := [(PropKey.min, PropVal.num 0), (PropKey.varName, PropVal.str "x")] }
          "id2" 2
          [.scrubbleNumber
            { id := "e1", sectionId := "s", elementPath := "p",
              originalProps :=
                [(PropKey.varName, PropVal.str "x"), (PropKey.min, PropVal.num 0)],
              newProps := [(PropKey.min, PropVal.num 5)], timestamp := 1 }] =
        [.scrubbleNumber
          { id := "e1", sectionId := "s", elementPath := "p",
            originalProps :=
              [(PropKey.varName, PropVal.str "x"), (PropKey.min, PropVal.num 0)],
            newProps := [(PropKey.min, PropVal.num 0), (PropKey.varName, PropVal.str "x")],
            timestamp := 2 }] := by
  constructor
  · intro k
    cases k <;> rfl
  · rfl

/-- C4 (amended): for an existing scrubbleNumber edit on the key, the call
removes the edit exactly when the JSON serialisations of the call's
`newProps` and the edit's captured `originalProps` coincide (insertion-order
sensitive, per `JSON.stringify`); otherwise `newProps` is updated in place. -/
theorem claim_C4_scrubble_revert_stringify :
    ∀ (l₁ l₂ : List PendingEdit) (n : ScrubbleNumberEdit) (e : ScrubbleNumberEditInput)
      (nid : String) (now : Nat),
      (∀ y ∈ l₁, isScrubbleFor e.sectionId e.elementPath y = false) →
      isScrubbleFor e.sectionId e.elementPath (.scrubbleNumber n) = true →
      addScrubbleNumberEdit e nid now (l₁ ++ .scrubbleNumber n :: l₂) =
        if stringifyProps e.newProps == stringifyProps n.originalProps then l₁ ++ l₂
        else l₁ ++
          .scrubbleNumber { n with newProps := e.newProps, timestamp := now } :: l₂ := by
  intro l₁ l₂ n e nid now h₁ h₂
  unfold addScrubbleNumberEdit
  rw [updateFirstWith_append l₁ (.scrubbleNumber n) l₂ h₁ h₂]
  by_cases hm : (stringifyProps e.newProps == stringifyProps n.originalProps) = true
  · simp [applyScrubbleUpdate, hm]
  · simp [applyScrubbleUpdate, hm]

/-- C4 witness: serialisation-equal props remove the edit. -/
theorem claim_C4_scrubble_revert_stringify_witness :
    addScrubbleNumberEdit
        { sectionId := "s", elementPath := "p",
          originalProps := [(PropKey.min, PropVal.num 1)],
          newProps := [(PropKey.varName, PropVal.str "v"), (PropKey.min, PropVal.num 1)] }
        "w" 5
        [.scrubbleNumber
          { id := "n1", sectionId := "s", elementPath := "p",
            originalProps :=
              [(PropKey.varName, PropVal.str "v"), (PropKey.min, PropVal.num 1)],
            newProps := [(PropKey.min, PropVal.num 9)], timestamp := 1 }] = [] := by
  have h := claim_C4_scrubble_revert_stringify [] []
    { id := "n1", sectionId := "s", elementPath := "p",
      originalProps := [(PropKey.varName, PropVal.str "v"), (PropKey.min, PropVal.num 1)],
      newProps := [(PropKey.min, PropVal.num 9)], timestamp := 1 }
    { sectionId := "s", elementPath := "p",
      originalProps := [(PropKey.min, PropVal.num 1)],
      newProps := [(PropKey.varName, PropVal.str "v"), (PropKey.min, PropVal.num 1)] }
    "w" 5 (by simp) (by decide)
  simpa using h

/-- C8: a save attempt with `min ≥ max`, `step ≤ 0`, or `defaultValue`
outside `[min, max]` is refused: the error message is set, the modal focus is
unchanged (the modal stays open), and the ledger is exactly what it was;
conversely, a save that changes the ledger passed validation. -/
theorem claim_C8_modal_validation_atomicity :
    (∀ (m : ModalState) (editing : Option EditingScrubbleNumber)
        (ledger : List PendingEdit) (nid : String) (now : Nat),
      m.min ≥ m.max ∨ m.step ≤ 0 ∨ m.defaultValue < m.min ∨ m.defaultValue > m.max →
      (handleSave m editing ledger nid now).1.error.isSome = true ∧
        (handleSave m editing ledger nid now).2.1 = editing ∧
        (handleSave m editing ledger nid now).2.2 = ledger) ∧
    ∀ (m : ModalState) (editing : Option EditingScrubbleNumber)
        (ledger : List PendingEdit) (nid : String) (now : Nat),
      (handleSave m editing ledger nid now).2.2 ≠ ledger → validateModal m = none := by
  constructor
  · intro m editing ledger nid now hviol
    obtain ⟨err, herr⟩ := Option.isSome_iff_exists.mp (validateModal_isSome hviol)
    simp [handleSave, herr]
  · intro m editing ledger nid now hne
    cases hv : validateModal m with
    | none => rfl
    | some err => exact absurd (by simp [handleSave, hv]) hne

/-- C8 witness: `min = 5 > max = 3` is refused and the ledger is untouched. -/
theorem claim_C8_modal_validation_atomicity_witness :
    (handleSave
        { varName := "", defaultValue := 4, min := 5, max := 3, step := 1, error := none }
        none [] "i" 1).1.error.isSome = true ∧
      (handleSave
        { varName := "", defaultValue := 4, min := 5, max := 3, step := 1, error := none }
        none [] "i" 1).2.1 = none ∧
      (handleSave
        { varName := "", defaultValue := 4, min := 5, max := 3, step := 1, error := none }
        none [] "i" 1).2.2 = [] :=
  claim_C8_modal_validation_atomicity.1
    { varName := "", defaultValue := 4, min := 5, max := 3, step := 1, error := none }
    none [] "i" 1 (Or.inl (by norm_num))

/-- C9: when an Equation edit exists for `(sectionId, originalLatex)` and the
call's `newLatex` equals that edit's `originalLatex`, the edit is removed —
whatever `colorMap` the call carries — leaving the rest of the ledger
unchanged, so no entry records the new colour map. -/
theorem claim_C9_equation_revert_discards_colorMap :
    ∀ (l₁ l₂ : List PendingEdit) (q : EquationEdit) (e : EquationEditInput)
      (nid : String) (now : Nat),
      (∀ y ∈ l₁, isEquationFor e.sectionId e.originalLatex y = false) →
      isEquationFor e.sectionId e.originalLatex (.equation q) = true →
      e.newLatex = q.originalLatex →
      addEquationEdit e nid now (l₁ ++ .equation q :: l₂) = l₁ ++ l₂ := by
  intro l₁ l₂ q e nid now h₁ h₂ hrev
  unfold addEquationEdit
  rw [updateFirstWith_append l₁ (.equation q) l₂ h₁ h₂]
  simp [applyEquationUpdate, hrev]

/-! # Marker-codec lemmas -/

theorem parseMarkerAt_cons_ne {c : Char} (h : c ≠ '\x7b') (l : List Char) :
    parseMarkerAt (c :: l) = none := by
  cases l with
  | nil => rfl
  | cons b bs => simp [parseMarkerAt, h]

theorem listStartsWith_append (l r : List Char) : listStartsWith l (l ++ r) = true := by
  induction l with
  | nil => rfl
  | cons a as ih => simpa [listStartsWith] using ih

theorem stripKind_self (s : String) (rest : List Char) :
    stripKind s (s.data ++ rest) = some rest := by
  simp [stripKind, listStartsWith_append, List.drop_left]

theorem stripKind_cross {k k' : InlineCommandType} (hkk : k ≠ k') (tail : List Char) :
    stripKind (kindString k) ((kindString k').data ++ tail) = none := by
  cases k <;> cases k' <;> first | exact absurd rfl hkk | rfl

theorem tryMarkerKind_cross (k j : InlineCommandType) (hkk : k ≠ j) (tail : List Char) :
    tryMarkerKind k ((kindString j).data ++ tail) = none := by
  unfold tryMarkerKind
  rw [stripKind_cross hkk]

theorem takeWhile_append_brace {l₁ : List Char} (l₂ : List Char)
    (h : ∀ c ∈ l₁, c ≠ '\x7d') :
    (l₁ ++ '\x7d' :: l₂).takeWhile (· != '\x7d') = l₁ ∧
      (l₁ ++ '\x7d' :: l₂).dropWhile (· != '\x7d') = '\x7d' :: l₂ := by
  induction l₁ with
  | nil => constructor <;> simp
  | cons a as ih =>
    have ha : (a != '\x7d') = true := by simpa using h a (by simp)
    obtain ⟨ih1, ih2⟩ := ih fun c hc => h c (by simp [hc])
    constructor
    · simpa [List.takeWhile_cons, ha] using ih1
    · simpa [List.dropWhile_cons, ha] using ih2

theorem finishMarker_self (k : InlineCommandType) {idc : List Char} (rest : List Char)
    (hne : idc ≠ []) (hmem : ∀ c ∈ idc, c ≠ '\x7d') :
    finishMarker k (':' :: (idc ++ '\x7d' :: '\x7d' :: rest)) = some (k, idc, rest) := by
  obtain ⟨htw, hdw⟩ := takeWhile_append_brace ('\x7d' :: rest) hmem
  have hie : idc.isEmpty = false := by
    cases idc with
    | nil => exact absurd rfl hne
    | cons a t => rfl
  simp [finishMarker, htw, hdw, hie]

theorem parseAfterBraces_marker (k : InlineCommandType) {idc : List Char} (rest : List Char)
    (hne : idc ≠ []) (hmem : ∀ c ∈ idc, c ≠ '\x7d') :
    parseAfterBraces ((kindString k).data ++ ':' :: (idc ++ '\x7d' :: '\x7d' :: rest)) =
      some (k, idc, rest) := by
  have hself : tryMarkerKind k
      ((kindString k).data ++ ':' :: (idc ++ '\x7d' :: '\x7d' :: rest)) =
        some (k, idc, rest) := by
    unfold tryMarkerKind
    rw [stripKind_self]
    exact finishMarker_self k rest hne hmem
  cases k with
  | inlineScrubbleNumber => simp [parseAfterBraces, hself]
  | inlineDropdown =>
    have h1 := tryMarkerKind_cross .inlineScrubbleNumber .inlineDropdown
      (by simp) (':' :: (idc ++ '\x7d' :: '\x7d' :: rest))
    simp [parseAfterBraces, h1, hself]
  | inlineTextInput =>
    have h1 := tryMarkerKind_cross .inlineScrubbleNumber .inlineTextInput
      (by simp) (':' :: (idc ++ '\x7d' :: '\x7d' :: rest))
    have h2 := tryMarkerKind_cross .inlineDropdown .inlineTextInput
      (by simp) (':' :: (idc ++ '\x7d' :: '\x7d' :: rest))
    simp [parseAfterBraces, h1, h2, hself]

theorem parseMarkerAt_marker (k : InlineCommandType) {idc : List Char} (rest : List Char)
    (hne : idc ≠ []) (hmem : ∀ c ∈ idc, c ≠ '\x7d') :
    parseMarkerAt (markerChars k idc ++ rest) = some (k, idc, rest) := by
  have hb : markerChars k idc ++ rest =
      '\x7b' :: '\x7b' ::
        ((kindString k).data ++ ':' :: (idc ++ '\x7d' :: '\x7d' :: rest)) := by
    simp [markerChars]
  rw [hb]
  simpa [parseMarkerAt] using parseAfterBraces_marker k rest hne hmem

theorem scanParts_marker {acc cs : List Char} {k : InlineCommandType}
    {idc rest : List Char} (h : parseMarkerAt cs = some (k, idc, rest)) :
    scanParts acc cs =
      (if acc.isEmpty then [] else [ReactPart.text (String.mk acc.reverse)]) ++
        ReactPart.widget k (String.mk idc) :: scanParts [] rest := by
  conv_lhs => rw [scanParts.eq_def]
  split
  next k' idc' rest' hm =>
    rw [h] at hm
    obtain ⟨rfl, rfl, rfl⟩ : k = k' ∧ idc = idc' ∧ rest = rest' := by simpa using hm
    rfl
  next hm => rw [h] at hm; exact absurd hm (by simp)

theorem scanParts_nil (acc : List Char) :
    scanParts acc [] =
      if acc.isEmpty then [] else [ReactPart.text (String.mk acc.reverse)] := by
  conv_lhs => rw [scanParts.eq_def]
  rfl

theorem scanParts_none_cons {c : Char} {cs : List Char}
    (h : parseMarkerAt (c :: cs) = none) (acc : List Char) :
    scanParts acc (c :: cs) = scanParts (c :: acc) cs := by
  conv_lhs => rw [scanParts.eq_def]
  split
  next k' idc' rest' hm => rw [h] at hm; exact absurd hm (by simp)
  next hm => rfl

theorem scanParts_no_marker {cs : List Char}
    (h : ∀ i : Nat, parseMarkerAt (cs.drop i) = none) (acc : List Char) :
    scanParts acc cs =
      if (acc.reverse ++ cs).isEmpty then []
      else [ReactPart.text (String.mk (acc.reverse ++ cs))] := by
  induction cs generalizing acc with
  | nil => simpa using scanParts_nil acc
  | cons c rest ih =>
    have h0 : parseMarkerAt (c :: rest) = none := by simpa using h 0
    rw [scanParts_none_cons h0 acc]
    rw [ih fun i => by simpa using h (i + 1)]
    have hx : (c :: acc).reverse ++ rest = acc.reverse ++ c :: rest := by simp
    rw [hx]

theorem no_marker_of_no_open_brace {cs : List Char} (h : ∀ c ∈ cs, c ≠ '\x7b') :
    ∀ i : Nat, parseMarkerAt (cs.drop i) = none := by
  intro i
  cases hd : cs.drop i with
  | nil => rfl
  | cons c t =>
    refine parseMarkerAt_cons_ne (h c ?_) t
    exact List.drop_subset i cs (by rw [hd]; simp)

theorem renderParts_append (a b : List ReactPart) :
    renderParts (a ++ b) = renderParts a ++ renderParts b := by
  simp [renderParts]

theorem renderParts_cons (x : ReactPart) (l : List ReactPart) :
    renderParts (x :: l) = renderPart x ++ renderParts l := by
  simp [renderParts]

theorem renderParts_flush (acc : List Char) :
    renderParts (if acc.isEmpty then [] else [ReactPart.text (String.mk acc.reverse)]) =
      acc.reverse := by
  by_cases hp : acc.isEmpty = true
  · obtain rfl := List.isEmpty_iff.mp hp
    simp [renderParts]
  · simp [hp, renderParts, renderPart]

theorem renderParts_scanParts :
    ∀ (n : Nat) (cs acc : List Char), cs.length ≤ n →
      renderParts (scanParts acc cs) = acc.reverse ++ cs := by
  intro n
  induction n with
  | zero =>
    intro cs acc hlen
    obtain rfl : cs = [] := List.length_eq_zero.mp (Nat.le_zero.mp hlen)
    rw [scanParts_nil, renderParts_flush]
    simp
  | succ n ih =>
    intro cs acc hlen
    cases hm : parseMarkerAt cs with
    | some v =>
      obtain ⟨k, idc, rest⟩ := v
      obtain ⟨hne, hmem, hcs⟩ := parseMarkerAt_eq_some hm
      have hlt := parseMarkerAt_length hm
      have hrest : renderParts (scanParts [] rest) = rest := by
        simpa using ih rest [] (by omega)
      rw [scanParts_marker hm, renderParts_append, renderParts_cons, renderParts_flush,
        hrest]
      have hw : renderPart (ReactPart.widget k (String.mk idc)) = markerChars k idc := rfl
      rw [hw, hcs]
    | none =>
      cases cs with
      | nil =>
        rw [scanParts_nil, renderParts_flush]
        simp
      | cons c rest =>
        rw [scanParts_none_cons hm acc]
        have hr : rest.length ≤ n := by
          simp only [List.length_cons] at hlen
          omega
        have := ih rest (c :: acc) hr
        simpa using this

/-- C9 witness: a latex revert carrying a fresh colour map still deletes the
pending equation edit. -/
theorem claim_C9_equation_revert_discards_colorMap_witness :
    addEquationEdit
        { sectionId := "s", componentType := .equationC, originalLatex := "x+1",
          newLatex := "x+1", colorMap := some [("x", "red")] } "i2" 4
        [.equation
          { id := "q1", sectionId := "s", componentType := .equationC,
            originalLatex := "x+1", newLatex := "x+2", colorMap := none, timestamp := 1 }] =
      [] := by
  have h := claim_C9_equation_revert_discards_colorMap [] []
    { id := "q1", sectionId := "s", componentType := .equationC,
      originalLatex := "x+1", newLatex := "x+2", colorMap := none, timestamp := 1 }
    { sectionId := "s", componentType := .equationC, originalLatex := "x+1",
      newLatex := "x+1", colorMap := some [("x", "red")] } "i2" 4
    (by simp) (by decide) rfl
  simpa using h


theorem scanParts_append_clean {acc : List Char} (pre cs : List Char)
    (h : ∀ c ∈ pre, c ≠ '\x7b') :
    scanParts acc (pre ++ cs) = scanParts (pre.reverse ++ acc) cs := by
  induction pre generalizing acc with
  | nil => simp
  | cons c pre ih =>
    have hc : c ≠ '\x7b' := h c (by simp)
    rw [List.cons_append, scanParts_none_cons (parseMarkerAt_cons_ne hc _) acc]
    rw [ih fun x hx => h x (by simp [hx])]
    congr 1
    simp

theorem stringMk_data (s : String) : String.mk s.data = s := by
  cases s
  rfl

theorem listIsEmpty_reverse (l : List Char) : l.reverse.isEmpty = l.isEmpty := by
  cases l with
  | nil => rfl
  | cons a t =>
    have h : ¬((a :: t).reverse.isEmpty = true) := by
      rw [List.isEmpty_iff]
      simp
    simp only [Bool.not_eq_true] at h
    rw [h]
    rfl

/-- C10: decoding preserves content — concatenating, in order, each literal
segment verbatim and each widget part as its token text reproduces the input
exactly (nothing dropped, duplicated or reordered); and an input in which no
position starts a well-formed registered marker decodes to the single literal
segment holding the input unchanged. -/
theorem claim_C10_decode_preserves_content :
    (∀ s : String, renderParts (parseContentWithInlineComponents s) = s.data) ∧
    ∀ s : String, (∀ i : Nat, parseMarkerAt (s.data.drop i) = none) →
      parseContentWithInlineComponents s = [ReactPart.text s] := by
  constructor
  · intro s
    unfold parseContentWithInlineComponents
    have h := renderParts_scanParts s.data.length s.data [] (le_refl _)
    by_cases hp : (scanParts [] s.data).isEmpty = true
    · rw [if_pos hp]
      obtain hnil := List.isEmpty_iff.mp hp
      rw [hnil] at h
      have hd : s.data = [] := by simpa [renderParts] using h.symm
      simp [renderParts, renderPart, hd]
    · rw [if_neg (by simp [hp])]
      simpa using h
  · intro s hall
    unfold parseContentWithInlineComponents
    rw [scanParts_no_marker hall []]
    by_cases hd : s.data.isEmpty = true
    · obtain hnil := List.isEmpty_iff.mp hd
      simp [hnil]
    · have hd' : s.data.isEmpty = false := by simpa using hd
      simp [hd', stringMk_data]

/-- C10 witness: a marker-free string decodes to itself as one literal part. -/
theorem claim_C10_decode_preserves_content_witness :
    parseContentWithInlineComponents "plain text, no markers" =
      [ReactPart.text "plain text, no markers"] :=
  claim_C10_decode_preserves_content.2 "plain text, no markers"
    (no_marker_of_no_open_brace (by decide))

theorem dropWhile_append_of_head {p : Char → Bool} (l₁ : List Char) {c : Char}
    (l₂ : List Char) (hc : p c = false) :
    (l₁ ++ c :: l₂).dropWhile p = l₁.dropWhile p ++ c :: l₂ := by
  induction l₁ with
  | nil => simp [List.dropWhile_cons, hc]
  | cons a as ih =>
    by_cases ha : p a = true
    · simp [List.dropWhile_cons, ha, ih]
    · have ha' : p a = false := by simpa using ha
      simp [List.dropWhile_cons, ha']

theorem jsTrim_decompose (pre mid post : List Char) {a b : Char}
    (ha : isJsWhitespace a = false) (hb : isJsWhitespace b = false) :
    jsTrim (pre ++ (a :: (mid ++ [b])) ++ post) =
      jsTrimLeft pre ++ (a :: (mid ++ [b])) ++ jsTrimRight post := by
  unfold jsTrim jsTrimLeft jsTrimRight
  have h1 : pre ++ (a :: (mid ++ [b])) ++ post = pre ++ a :: (mid ++ b :: post) := by
    simp
  rw [h1, dropWhile_append_of_head pre (mid ++ b :: post) ha]
  have h2 : (pre.dropWhile isJsWhitespace ++ a :: (mid ++ b :: post)).reverse =
      post.reverse ++ b ::
        (mid.reverse ++ a :: (pre.dropWhile isJsWhitespace).reverse) := by
    simp
  rw [h2, dropWhile_append_of_head post.reverse
    (mid.reverse ++ a :: (pre.dropWhile isJsWhitespace).reverse) hb]
  simp

theorem jsTrim_marker (pre post : List Char) (k : InlineCommandType) (idc : List Char) :
    jsTrim (pre ++ markerChars k idc ++ post) =
      jsTrimLeft pre ++ markerChars k idc ++ jsTrimRight post := by
  have hshape : markerChars k idc =
      '\x7b' :: (('\x7b' :: ((kindString k).data ++ ':' :: idc ++ ['\x7d'])) ++ ['\x7d']) := by
    simp [markerChars]
  rw [hshape]
  exact jsTrim_decompose pre _ post (by decide) (by decide)

theorem processNodes_marker_triple (k : InlineCommandType) (pre i post : String)
    (hi : i.data ≠ []) :
    processNodes [DomNode.textNode pre,
        DomNode.element (some (kindString k)) (some i) [], DomNode.textNode post] =
      pre.data ++ markerChars k i.data ++ post.data := by
  have hie : i ≠ "" := fun h => hi (by rw [h])
  have hi2 : (i == "") = false := beq_eq_false_iff_ne.mpr hie
  cases k <;>
    simp [processNodes, processNode, truthyAttr, hi2, markerChars, kindString]

/-- C5: marker round-trip — for every registered inline kind, every non-empty
id containing no closing brace, and literal text before and after containing
no opening brace, decoding the encoding of the content yields exactly the
(trimmed) leading literal, then one widget instance with that kind and id,
then the (trimmed) trailing literal: one widget, kind and id exact, the
surrounding literal text preserved in order with no residue of the token. -/
theorem claim_C5_marker_roundtrip :
    ∀ (k : InlineCommandType) (i pre post : String),
      i.data ≠ [] → '\x7d' ∉ i.data → '\x7b' ∉ pre.data → '\x7b' ∉ post.data →
      parseContentWithInlineComponents (extractContentWithMarkers
          [DomNode.textNode pre, DomNode.element (some (kindString k)) (some i) [],
           DomNode.textNode post]) =
        (if (jsTrimLeft pre.data).isEmpty then []
         else [ReactPart.text (String.mk (jsTrimLeft pre.data))]) ++
          ReactPart.widget k i ::
            (if (jsTrimRight post.data).isEmpty then []
             else [ReactPart.text (String.mk (jsTrimRight post.data))]) := by
  intro k i pre post hne hbr hpre hpost
  have hmem : ∀ c ∈ i.data, c ≠ '\x7d' := fun c hc h => hbr (h ▸ hc)
  have hpre' : ∀ c ∈ jsTrimLeft pre.data, c ≠ '\x7b' := by
    intro c hc h
    exact hpre (h ▸ (List.dropWhile_sublist _).subset hc)
  have hpost' : ∀ c ∈ jsTrimRight post.data, c ≠ '\x7b' := by
    intro c hc h
    subst h
    apply hpost
    have h1 : '\x7b' ∈ post.data.reverse.dropWhile isJsWhitespace := by
      simpa [jsTrimRight] using hc
    have h2 := (List.dropWhile_sublist _).subset h1
    simpa using h2
  unfold extractContentWithMarkers
  rw [processNodes_marker_triple k pre i post hne, jsTrim_marker]
  unfold parseContentWithInlineComponents
  have hdata : (String.mk (jsTrimLeft pre.data ++ markerChars k i.data ++
      jsTrimRight post.data)).data =
      jsTrimLeft pre.data ++ (markerChars k i.data ++ jsTrimRight post.data) := by
    simp
  rw [hdata, scanParts_append_clean (jsTrimLeft pre.data) _ hpre']
  rw [scanParts_marker (parseMarkerAt_marker k (jsTrimRight post.data) hne hmem)]
  rw [scanParts_no_marker (no_marker_of_no_open_brace hpost') []]
  simp only [List.append_nil, List.nil_append, List.reverse_reverse,
    listIsEmpty_reverse, stringMk_data]
  by_cases h1 : (jsTrimLeft pre.data).isEmpty = true <;>
    by_cases h2 : (jsTrimRight post.data).isEmpty = true <;>
      simp [h1, h2]

/-- C5 witness: one dropdown marker between two literals round-trips. -/
theorem claim_C5_marker_roundtrip_witness :
    parseContentWithInlineComponents (extractContentWithMarkers
        [DomNode.textNode "  hi ",
         DomNode.element (some (kindString .inlineDropdown)) (some "z9") [],
         DomNode.textNode " yo  "]) =
      [ReactPart.text "hi ", ReactPart.widget .inlineDropdown "z9",
       ReactPart.text " yo"] := by
  have h := claim_C5_marker_roundtrip .inlineDropdown "z9" "  hi " " yo  "
    (by decide) (by decide) (by decide) (by decide)
  rw [h]
  decide

/-! # Command-filter lemmas -/

theorem hasSubstring_iff {hay nee : List Char} :
    hasSubstring hay nee = true ↔ SpecSubstring nee hay := by
  induction hay with
  | nil =>
    cases nee with
    | nil =>
      simp only [hasSubstring, listStartsWith, SpecSubstring]
      exact ⟨fun _ => ⟨[], [], rfl⟩, fun _ => rfl⟩
    | cons c cs =>
      simp only [hasSubstring, listStartsWith, SpecSubstring]
      constructor
      · intro h; simp at h
      · rintro ⟨l₁, l₂, h⟩
        exact absurd h.symm (by simp)
  | cons a t ih =>
    have hstep : hasSubstring (a :: t) nee =
        (listStartsWith nee (a :: t) || hasSubstring t nee) := by
      rw [hasSubstring]
    rw [hstep]
    simp only [Bool.or_eq_true, listStartsWith_iff, ih]
    constructor
    · rintro (⟨r, hr⟩ | ⟨l₁, l₂, hl⟩)
      · exact ⟨[], r, by simpa using hr⟩
      · exact ⟨a :: l₁, l₂, by simp [hl]⟩
    · rintro ⟨l₁, l₂, hl⟩
      cases l₁ with
      | nil => exact Or.inl ⟨l₂, by simpa using hl⟩
      | cons b l₁ =>
        have hl' : a = b ∧ t = l₁ ++ nee ++ l₂ := by
          simpa using hl
        exact Or.inr ⟨l₁, l₂, hl'.2⟩

theorem commandMatches_iff_spec (q : String) (cmd : SlashCommand)
    (hkw : ∀ kw ∈ cmd.keywords, jsToLower kw = kw) :
    commandMatches q cmd = true ↔ specCommandMatches q cmd := by
  unfold commandMatches specCommandMatches
  simp only [Bool.or_eq_true, hasSubstring_iff, List.any_eq_true]
  constructor
  · rintro ((h | h) | ⟨kw, hmem, hsub⟩)
    · exact Or.inl h
    · exact Or.inr (Or.inl h)
    · refine Or.inr (Or.inr ⟨kw, hmem, ?_⟩)
      rw [hkw kw hmem]
      exact hsub
  · rintro (h | h | ⟨kw, hmem, hsub⟩)
    · exact Or.inl (Or.inl h)
    · exact Or.inl (Or.inr h)
    · refine Or.inr ⟨kw, hmem, ?_⟩
      rw [hkw kw hmem] at hsub
      exact hsub

/-- C6: the filter returns exactly the commands whose label, description, or
some keyword contains the lowercased query as a substring (case-insensitive
substring, per `specCommandMatches`), as an order-preserving subsequence of
the registry; the empty query returns the whole registry, and `"head"`
returns exactly the three heading commands in their original order. -/
theorem claim_C6_command_filter :
    (∀ q : String, List.Sublist (filteredCommands q) slashCommands) ∧
    (∀ (q : String) (cmd : SlashCommand),
      cmd ∈ filteredCommands q ↔ cmd ∈ slashCommands ∧ specCommandMatches q cmd) ∧
    filteredCommands "" = slashCommands ∧
    (filteredCommands "head").map SlashCommand.id =
      [SlashCommandType.h1, SlashCommandType.h2, SlashCommandType.h3] := by
  refine ⟨fun q => List.filter_sublist _, ?_, by decide, by decide⟩
  intro q cmd
  rw [filteredCommands, List.mem_filter]
  constructor
  · rintro ⟨hmem, hmatch⟩
    have hkw : ∀ kw ∈ cmd.keywords, jsToLower kw = kw := by
      fin_cases hmem <;> decide
    exact ⟨hmem, (commandMatches_iff_spec q cmd hkw).mp hmatch⟩
  · rintro ⟨hmem, hspec⟩
    have hkw : ∀ kw ∈ cmd.keywords, jsToLower kw = kw := by
      fin_cases hmem <;> decide
    exact ⟨hmem, (commandMatches_iff_spec q cmd hkw).mpr hspec⟩

/-! # Slash-trigger lemmas -/

theorem lastIndexOfChar_eq_none_iff {c : Char} {cs : List Char} :
    lastIndexOfChar c cs = none ↔ c ∉ cs := by
  induction cs with
  | nil => simp [lastIndexOfChar]
  | cons a rest ih =>
    simp only [lastIndexOfChar]
    cases h : lastIndexOfChar c rest with
    | some k =>
      have hmemr : c ∈ rest := by
        by_contra hn
        rw [ih.mpr hn] at h
        exact absurd h (by simp)
      simp [hmemr]
    | none =>
      have hrest : c ∉ rest := ih.mp h
      by_cases hac : (a == c) = true
      · have ha : a = c := by simpa using hac
        simp [hac, ha]
      · have ha : ¬(c = a) := fun hh => hac (by simp [hh])
        simp [hac, ha, hrest]

theorem lastIndexOfChar_eq_some_iff {c : Char} {cs : List Char} {p : Nat} :
    lastIndexOfChar c cs = some p ↔
      (cs.get? p = some c ∧ ∀ j, p < j → cs.get? j ≠ some c) := by
  induction cs generalizing p with
  | nil => simp [lastIndexOfChar]
  | cons a rest ih =>
    simp only [lastIndexOfChar]
    cases h : lastIndexOfChar c rest with
    | some k =>
      obtain ⟨hk1, hk2⟩ := (ih (p := k)).mp h
      constructor
      · intro hp
        obtain rfl : p = k + 1 := by simpa using hp.symm
        refine ⟨by simpa using hk1, ?_⟩
        intro j hj
        cases j with
        | zero => omega
        | succ j' =>
          have := hk2 j' (by omega)
          simpa using this
      · rintro ⟨h1, h2⟩
        rcases Nat.lt_trichotomy p (k + 1) with hlt | heq | hgt
        · exact absurd (show (a :: rest).get? (k + 1) = some c by simpa using hk1)
            (h2 (k + 1) hlt)
        · simp [heq]
        · exfalso
          cases p with
          | zero => omega
          | succ p' =>
            have hp' : rest.get? p' = some c := by simpa using h1
            exact hk2 p' (by omega) hp'
    | none =>
      have hrest : c ∉ rest := lastIndexOfChar_eq_none_iff.mp h
      have hnone : ∀ j, rest.get? j ≠ some c := by
        intro j hj
        exact hrest (List.get?_mem hj)
      by_cases hac : (a == c) = true
      · have ha : a = c := by simpa using hac
        rw [if_pos hac]
        constructor
        · intro hp
          obtain rfl : p = 0 := by simpa using hp.symm
          refine ⟨by simp [ha], ?_⟩
          intro j hj
          cases j with
          | zero => omega
          | succ j' => simpa using hnone j'
        · rintro ⟨h1, h2⟩
          cases p with
          | zero => rfl
          | succ p' => exact absurd (by simpa using h1) (hnone p')
      · rw [if_neg hac]
        have ha : a ≠ c := by simpa using hac
        constructor
        · intro hp
          simp at hp
        · rintro ⟨h1, h2⟩
          cases p with
          | zero =>
            have : a = c := by simpa using h1
            exact absurd this ha
          | succ p' => exact absurd (by simpa using h1) (hnone p')

theorem handleInput_empty (ph : String) (raw : List Char) (st : RegionState)
    (h : stripTrailingNewlines raw = []) :
    handleInput ph raw st =
      { st with
        showSlashMenu := false
        slashQuery := ""
        slashPosition := none
        selectedBlockType := none
        placeholder := if st.selectedBlockType.isSome then ph else st.placeholder } := by
  have hie : (stripTrailingNewlines raw).isEmpty = true := by rw [h]; rfl
  simp [handleInput, hie]

theorem handleInput_open (ph : String) (raw : List Char) (st : RegionState) (i : Nat)
    (hne : (stripTrailingNewlines raw).isEmpty = false)
    (hli : lastIndexOfChar '/' (stripTrailingNewlines raw) = some i)
    (hsp : ((stripTrailingNewlines raw).drop (i + 1)).any (· == ' ') = false) :
    handleInput ph raw st =
      { st with
        showSlashMenu := true
        slashQuery := String.mk ((stripTrailingNewlines raw).drop (i + 1))
        slashPosition := some i } := by
  simp [handleInput, hne, hli, hsp]

theorem handleInput_space (ph : String) (raw : List Char) (st : RegionState) (i : Nat)
    (hne : (stripTrailingNewlines raw).isEmpty = false)
    (hli : lastIndexOfChar '/' (stripTrailingNewlines raw) = some i)
    (hsp : ((stripTrailingNewlines raw).drop (i + 1)).any (· == ' ') = true) :
    handleInput ph raw st =
      { st with showSlashMenu := false, slashQuery := "", slashPosition := none } := by
  simp [handleInput, hne, hli, hsp]

theorem handleInput_noslash (ph : String) (raw : List Char) (st : RegionState)
    (hne : (stripTrailingNewlines raw).isEmpty = false)
    (hli : lastIndexOfChar '/' (stripTrailingNewlines raw) = none) :
    handleInput ph raw st =
      { st with showSlashMenu := false, slashQuery := "", slashPosition := none } := by
  simp [handleInput, hne, hli]

theorem listIsEmpty_false_of_ne_nil {l : List Char} (h : l ≠ []) : l.isEmpty = false := by
  cases l with
  | nil => exact absurd rfl h
  | cons a t => rfl

/-- C7: after a buffer-change event, with trailing newlines stripped: an
empty buffer resets the menu, trigger offset and query, clears any selected
block variant and (when one was set) restores the default placeholder; a
non-empty buffer opens the menu with query `q` and offset `p` exactly when
`p` is the index of the last `/` and the text after it contains no space; in
every other non-empty case the menu is closed with the query and offset
cleared, and a non-empty buffer never touches the selected variant or the
placeholder. -/
theorem claim_C7_slash_trigger :
    ∀ (ph : String) (raw : List Char) (st : RegionState),
      (stripTrailingNewlines raw = [] →
        handleInput ph raw st =
          { st with
            showSlashMenu := false
            slashQuery := ""
            slashPosition := none
            selectedBlockType := none
            placeholder :=
              if st.selectedBlockType.isSome then ph else st.placeholder }) ∧
      (stripTrailingNewlines raw ≠ [] →
        ∀ (p : Nat) (q : String),
          ((handleInput ph raw st).showSlashMenu = true ∧
              (handleInput ph raw st).slashPosition = some p ∧
              (handleInput ph raw st).slashQuery = q) ↔
            (IsLastSlashIndex (stripTrailingNewlines raw) p ∧
              q = String.mk ((stripTrailingNewlines raw).drop (p + 1)) ∧
              ∀ c ∈ (stripTrailingNewlines raw).drop (p + 1), c ≠ ' ')) ∧
      (stripTrailingNewlines raw ≠ [] →
        (handleInput ph raw st).showSlashMenu = false →
        (handleInput ph raw st).slashQuery = "" ∧
          (handleInput ph raw st).slashPosition = none) ∧
      (stripTrailingNewlines raw ≠ [] →
        (handleInput ph raw st).selectedBlockType = st.selectedBlockType ∧
          (handleInput ph raw st).placeholder = st.placeholder) := by
  intro ph raw st
  refine ⟨fun h => handleInput_empty ph raw st h, ?_, ?_, ?_⟩
  · intro hne p q
    have hie := listIsEmpty_false_of_ne_nil hne
    cases hli : lastIndexOfChar '/' (stripTrailingNewlines raw) with
    | some i =>
      by_cases hsp : (((stripTrailingNewlines raw).drop (i + 1)).any (· == ' ')) = true
      · rw [handleInput_space ph raw st i hie hli hsp]
        constructor
        · rintro ⟨h1, -⟩
          exact absurd h1 (by simp)
        · rintro ⟨hlast, -, hnosp⟩
          exfalso
          have hp : lastIndexOfChar '/' (stripTrailingNewlines raw) = some p :=
            lastIndexOfChar_eq_some_iff.mpr ⟨hlast.1, hlast.2⟩
          rw [hli] at hp
          obtain rfl : i = p := by simpa using hp
          obtain ⟨c, hcmem, hceq⟩ := List.any_eq_true.mp hsp
          exact hnosp c hcmem (by simpa using hceq)
      · have hsp' : (((stripTrailingNewlines raw).drop (i + 1)).any (· == ' ')) = false :=
          Bool.eq_false_iff.mpr hsp
        rw [handleInput_open ph raw st i hie hli hsp']
        constructor
        · rintro ⟨-, hpos, hq⟩
          obtain rfl : i = p := by simpa using hpos
          obtain ⟨h1, h2⟩ := lastIndexOfChar_eq_some_iff.mp hli
          refine ⟨⟨h1, h2⟩, hq.symm, ?_⟩
          intro c hc hceq
          subst hceq
          exact List.any_eq_false.mp hsp' ' ' hc (by decide)
        · rintro ⟨hlast, hq, hnosp⟩
          have hp : lastIndexOfChar '/' (stripTrailingNewlines raw) = some p :=
            lastIndexOfChar_eq_some_iff.mpr ⟨hlast.1, hlast.2⟩
          rw [hli] at hp
          obtain rfl : i = p := by simpa using hp
          exact ⟨rfl, rfl, hq.symm⟩
    | none =>
      rw [handleInput_noslash ph raw st hie hli]
      constructor
      · rintro ⟨h1, -⟩
        exact absurd h1 (by simp)
      · rintro ⟨hlast, -, -⟩
        exfalso
        have hmemtext : '/' ∈ stripTrailingNewlines raw := List.get?_mem hlast.1
        exact lastIndexOfChar_eq_none_iff.mp hli hmemtext
  · intro hne hshow
    have hie := listIsEmpty_false_of_ne_nil hne
    cases hli : lastIndexOfChar '/' (stripTrailingNewlines raw) with
    | some i =>
      by_cases hsp : (((stripTrailingNewlines raw).drop (i + 1)).any (· == ' ')) = true
      · rw [handleInput_space ph raw st i hie hli hsp]
        exact ⟨rfl, rfl⟩
      · have hsp' : (((stripTrailingNewlines raw).drop (i + 1)).any (· == ' ')) = false :=
          Bool.eq_false_iff.mpr hsp
        rw [handleInput_open ph raw st i hie hli hsp'] at hshow
        exact absurd hshow (by simp)
    | none =>
      rw [handleInput_noslash ph raw st hie hli]
      exact ⟨rfl, rfl⟩
  · intro hne
    have hie := listIsEmpty_false_of_ne_nil hne
    cases hli : lastIndexOfChar '/' (stripTrailingNewlines raw) with
    | some i =>
      by_cases hsp : (((stripTrailingNewlines raw).drop (i + 1)).any (· == ' ')) = true
      · rw [handleInput_space ph raw st i hie hli hsp]
        exact ⟨rfl, rfl⟩
      · have hsp' : (((stripTrailingNewlines raw).drop (i + 1)).any (· == ' ')) = false :=
          Bool.eq_false_iff.mpr hsp
        rw [handleInput_open ph raw st i hie hli hsp']
        exact ⟨rfl, rfl⟩
    | none =>
      rw [handleInput_noslash ph raw st hie hli]
      exact ⟨rfl, rfl⟩

/-- C7 witness: the buffer `"hey /he"` opens the menu at the last slash with
query `"he"`, and index 4 is indeed the last slash with a space-free query. -/
theorem claim_C7_slash_trigger_witness :
    IsLastSlashIndex (stripTrailingNewlines ("hey /he".data)) 4 ∧
      "he" = String.mk ((stripTrailingNewlines ("hey /he".data)).drop 5) ∧
      ∀ c ∈ (stripTrailingNewlines ("hey /he".data)).drop 5, c ≠ ' ' := by
  have h := (claim_C7_slash_trigger "Type here" "hey /he".data
      { showSlashMenu := false, slashQuery := "", slashPosition := none,
        selectedBlockType := none, placeholder := "Type here" }).2.1
    (by decide) 4 "he"
  exact h.mp (by decide)

end LessonEditor
